import Mathlib

/-!
# Steric rod-rod interactions (rod_interactions.cpp)

A shallow embedding of the four routines of `src/rod_interactions.cpp`:

* `get_steric_perturbation_energy`
* `rod_distance_correction`
* `get_shortest_distance_to_rod`
* `assign_neighbours_to_elements`

The C++ `float` arithmetic is idealised as exact arithmetic in a linearly
ordered field `K`; the square root used by the Euclidean norm is a parameter
`sqrt : K → K` of every routine that needs it.  The theorems assume that this
parameter really is a square root (`IsSqrt`), and are instantiated at the real
numbers with `Real.sqrt`.  A `float[3]` buffer is a function `Fin 3 → K`, a
`std::vector<float>` is a `List K`.  In-place mutation of a buffer is rendered
by returning the final contents of the buffer.

Where a claim is about the rounded arithmetic itself (whether a divisor is
exactly zero), the `_fl` variants of the vector helpers take the rounding
`fl : K → K` as one more parameter; `round_binary32` is the rounding of the
`float` format, and with `fl = id` the `_fl` variants are the exact ones.
-/

namespace rod

variable {K : Type} [LinearOrderedField K]

/-- A `float[3]` buffer. -/
abbrev Vec3 (K : Type) : Type := Fin 3 → K

/-- What the theorems require of the square-root parameter: it is
non-negative and squares back to its (non-negative) argument. -/
structure IsSqrt (sqrt : K → K) : Prop where
  nonneg : ∀ x, 0 ≤ sqrt x
  mul_self : ∀ x, 0 ≤ x → sqrt x * sqrt x = x

/-- Modelled from the spec: `dot_product_3x1` is declared in `rod_math` and
not part of this source file; the spec's Vector3 Math component describes it
as the dot product of 3-component vectors. -/
def dot_product_3x1 (a b : Vec3 K) : K :=
  a 0 * b 0 + a 1 * b 1 + a 2 * b 2

/-- Modelled from the spec: `rod::absolute` is declared in `rod_math` and not
part of this source file; the spec's Vector3 Math component describes it as
the Euclidean norm of a 3-component vector. -/
def absolute (sqrt : K → K) (a : Vec3 K) : K :=
  sqrt (a 0 * a 0 + a 1 * a 1 + a 2 * a 2)

/-- Modelled from the spec: `cross_product` is declared in `rod_math` and not
part of this source file; the spec's Vector3 Math component describes it as
the cross product of 3-component vectors. -/
def cross_product (a b : Vec3 K) : Vec3 K :=
  ![a 1 * b 2 - a 2 * b 1, a 2 * b 0 - a 0 * b 2, a 0 * b 1 - a 1 * b 0]

/-- Modelled from the spec: `normalize` is declared in `rod_math` and not part
of this source file; the spec describes it as normalisation of a vector to a
unit direction, `l = p / |p|`. -/
def normalize (sqrt : K → K) (a : Vec3 K) : Vec3 K :=
  fun n => a n / absolute sqrt a

/-- The locals and outputs of `get_steric_perturbation_energy` at the end of
its body: `c_b` is the caller's buffer after the in-place perturbation,
`energies` is the `OUT` array. -/
structure StericPerturbation (K : Type) where
  c_b : Vec3 K
  energy : K
  weight_node_1 : K
  weight_node_2 : K
  energies : Fin 2 → K

/-- Embedding of `get_steric_perturbation_energy` (lines 53-86).  The index
`perturbation_dimension` is an `int` in the source; only the indices 0, 1, 2
address the three-element buffer, so it is a `Fin 3` here. -/
def get_steric_perturbation_energy (sqrt : K → K)
    (perturbation_amount : K) (perturbation_dimension : Fin 3) (force_constant : K)
    (r_a p_a c_a c_b : Vec3 K) (radius_a radius_b : K) : StericPerturbation K :=
  -- c_b[perturbation_dimension] += perturbation_amount;
  let c_b : Vec3 K :=
    Function.update c_b perturbation_dimension (c_b perturbation_dimension + perturbation_amount)
  let c_ab : Vec3 K := fun n => c_b n - c_a n
  let energy := force_constant * (absolute sqrt c_ab - (radius_a + radius_b))
  let displacement : Vec3 K := fun n => c_a n - r_a n
  let weight_node_2 := absolute sqrt displacement / absolute sqrt p_a
  let weight_node_1 := 1 - weight_node_2
  { c_b := c_b
    energy := energy
    weight_node_1 := weight_node_1
    weight_node_2 := weight_node_2
    energies := ![weight_node_1 * energy, weight_node_2 * energy] }

/-- Stage 1 of `rod_distance_correction` for `c_a` (lines 135-140), given the
already computed `dot_a` and `p_a_sq`. -/
def stage1_c_a (dot_a p_a_sq : K) (c_a r_a r_a2 : Vec3 K) : Vec3 K :=
  if dot_a ≤ 0 then r_a
  else if dot_a ≥ p_a_sq then r_a2
  else c_a

/-- Stage 1 of `rod_distance_correction` for `c_b` (lines 142-147).  The
second test of the source reads `dot_a >= p_b_sq`, so `dot_a` is an argument
here as well. -/
def stage1_c_b (dot_a dot_b p_b_sq : K) (c_b r_b r_b2 : Vec3 K) : Vec3 K :=
  if dot_b ≤ 0 then r_b
  else if dot_a ≥ p_b_sq then r_b2
  else c_b

/-- The points `(c_a, c_b)` of `rod_distance_correction` as Stage 1 leaves
them (lines 120-147). -/
def rod_distance_correction_stage1 (sqrt : K → K)
    (c_a c_b r_a r_b p_a p_b : Vec3 K) : Vec3 K × Vec3 K :=
  let r_a2 : Vec3 K := fun n => r_a n + p_a n
  let r_b2 : Vec3 K := fun n => r_b n + p_b n
  let rc_a : Vec3 K := fun n => c_a n - r_a n
  let rc_b : Vec3 K := fun n => c_b n - r_b n
  let dot_a := dot_product_3x1 p_a rc_a
  let dot_b := dot_product_3x1 p_b rc_b
  let p_a_sq := absolute sqrt p_a * absolute sqrt p_a
  let p_b_sq := absolute sqrt p_b * absolute sqrt p_b
  (stage1_c_a dot_a p_a_sq c_a r_a r_a2, stage1_c_b dot_a dot_b p_b_sq c_b r_b r_b2)

/-- Stage 2 of `rod_distance_correction` (lines 153-183), run on the points
`(c_a, c_b)` that Stage 1 produced; the result is `(c_a_out, c_b_out)`. -/
def rod_distance_correction_stage2 (sqrt : K → K)
    (c_a c_b r_a r_b p_a p_b : Vec3 K) : Vec3 K × Vec3 K :=
  let r_a2 : Vec3 K := fun n => r_a n + p_a n
  let r_b2 : Vec3 K := fun n => r_b n + p_b n
  let c_ab : Vec3 K := fun n => c_b n - c_a n
  let d1 : Vec3 K := fun n => c_b n - r_a n
  let d2 : Vec3 K := fun n => c_b n - r_a2 n
  let d3 : Vec3 K := fun n => c_a n - r_b n
  let d4 : Vec3 K := fun n => c_a n - r_b2 n
  let d1_mag := absolute sqrt d1
  let d2_mag := absolute sqrt d2
  let d3_mag := absolute sqrt d3
  let d4_mag := absolute sqrt d4
  if absolute sqrt c_ab > (99 / 100) * min d1_mag (min d2_mag (min d3_mag d4_mag)) then
    if d1_mag ≤ min d2_mag (min d3_mag d4_mag) then (r_a, c_b)
    else if d2_mag ≤ min d3_mag d4_mag then (r_a2, c_b)
    else if d3_mag ≤ d4_mag then (c_a, r_b)
    else (c_a, r_b2)
  else (c_a, c_b)

/-- Embedding of `rod_distance_correction` (lines 100-198): Stage 1 followed
by Stage 2; the result is `(c_a_out, c_b_out)`.  The source also overwrites
its arguments `c_a`, `c_b` with the same values. -/
def rod_distance_correction (sqrt : K → K)
    (c_a c_b r_a r_b p_a p_b : Vec3 K) : Vec3 K × Vec3 K :=
  let s1 := rod_distance_correction_stage1 sqrt c_a c_b r_a r_b p_a p_b
  rod_distance_correction_stage2 sqrt s1.1 s1.2 r_a r_b p_a p_b

/-- The raw points `(c_a, c_b)` computed by `get_shortest_distance_to_rod`
before it calls the corrector (lines 215-227). -/
def shortest_distance_raw (sqrt : K → K) (p_a p_b r_a r_b : Vec3 K) : Vec3 K × Vec3 K :=
  let l_a := normalize sqrt p_a
  let l_b := normalize sqrt p_b
  let l_a_cross_l_b := cross_product l_a l_b
  let n_a := cross_product l_a l_a_cross_l_b
  let n_b := cross_product l_b l_a_cross_l_b
  let r_ab : Vec3 K := fun n => r_b n - r_a n
  let r_ba : Vec3 K := fun n => r_a n - r_b n
  (fun n => r_a n + dot_product_3x1 r_ab n_b / dot_product_3x1 l_a n_b * l_a n,
   fun n => r_b n + dot_product_3x1 r_ba n_a / dot_product_3x1 l_b n_a * l_b n)

/-- Embedding of `get_shortest_distance_to_rod` (lines 206-249): the raw
infinite-line points, then `rod_distance_correction` on them; the result is
the final content of the `OUT` buffers `(c_a, c_b)`. -/
def get_shortest_distance_to_rod (sqrt : K → K) (p_a p_b r_a r_b : Vec3 K) :
    Vec3 K × Vec3 K :=
  let raw := shortest_distance_raw sqrt p_a p_b r_a r_b
  rod_distance_correction sqrt raw.1 raw.2 r_a r_b p_a p_b

/-- The three parameters of `assign_neighbours_to_elements` that the source
marks `OUT`: the two neighbour lists and the flag. -/
structure NeighbourState (K : Type) where
  element_a_neighbours : List K
  element_b_neighbours : List K
  in_range : Bool

/-- Embedding of the body of `assign_neighbours_to_elements` (lines 274-297):
from the values its parameters hold on entry to the values its parameters
`element_a_neighbours`, `element_b_neighbours`, `in_range` hold when the body
ends.  `reserve` changes capacity only and has no counterpart on lists. -/
def assign_neighbours_to_elements (sqrt : K → K) (p_a p_b r_a r_b : Vec3 K)
    (radius_a radius_b : K) (s : NeighbourState K) : NeighbourState K :=
  let c := get_shortest_distance_to_rod sqrt p_a p_b r_a r_b
  let c_a := c.1
  let c_b := c.2
  let c_ab : Vec3 K := fun n => c_b n - c_a n
  if absolute sqrt c_ab < radius_a + radius_b then
    { element_a_neighbours :=
        s.element_a_neighbours ++ [c_a 0, c_a 1, c_a 2] ++ [c_b 0, c_b 1, c_b 2] ++ [radius_b]
      element_b_neighbours :=
        s.element_b_neighbours ++ [c_b 0, c_b 1, c_b 2] ++ [c_a 0, c_a 1, c_a 2] ++ [radius_a]
      in_range := true }
  else
    { s with in_range := false }

/-- A call of `assign_neighbours_to_elements` seen from the caller.  The
source declares `std::vector<float> element_a_neighbours`,
`std::vector<float> element_b_neighbours` and `bool in_range` without `&`
(`OUT` expands to nothing) and returns `void`: the body works on copies that
are destroyed on return, and the caller's three variables keep the values
they had before the call. -/
def call_assign_neighbours_to_elements (sqrt : K → K) (p_a p_b r_a r_b : Vec3 K)
    (radius_a radius_b : K) (caller : NeighbourState K) : NeighbourState K :=
  let _body := assign_neighbours_to_elements sqrt p_a p_b r_a r_b radius_a radius_b caller
  caller

/-- The four `float[3]` arguments of `get_steric_perturbation_energy` as the
caller finds them after the call, in the order `(r_a, p_a, c_a, c_b)`.  The
body writes `c_b[perturbation_dimension]` (line 73) and `energies`
(lines 83-84) and nothing else; `r_a`, `p_a`, `c_a` are only read. -/
def steric_buffers_after (sqrt : K → K)
    (perturbation_amount : K) (perturbation_dimension : Fin 3) (force_constant : K)
    (r_a p_a c_a c_b : Vec3 K) (radius_a radius_b : K) :
    Vec3 K × Vec3 K × Vec3 K × Vec3 K :=
  (r_a, p_a, c_a,
    (get_steric_perturbation_energy sqrt perturbation_amount perturbation_dimension
      force_constant r_a p_a c_a c_b radius_a radius_b).c_b)

/-- The four magnitudes `(d1_mag, d2_mag, d3_mag, d4_mag)` of lines 154-162,
computed from the points `(c_a, c_b)` Stage 1 produced. -/
def stage2_d_mags (sqrt : K → K) (c_a c_b r_a r_b p_a p_b : Vec3 K) : K × K × K × K :=
  let r_a2 : Vec3 K := fun n => r_a n + p_a n
  let r_b2 : Vec3 K := fun n => r_b n + p_b n
  let d1 : Vec3 K := fun n => c_b n - r_a n
  let d2 : Vec3 K := fun n => c_b n - r_a2 n
  let d3 : Vec3 K := fun n => c_a n - r_b n
  let d4 : Vec3 K := fun n => c_a n - r_b2 n
  (absolute sqrt d1, absolute sqrt d2, absolute sqrt d3, absolute sqrt d4)

/-- The value `std::min({d1_mag, d2_mag, d3_mag, d4_mag})` of line 167. -/
def stage2_min_mag (sqrt : K → K) (c_a c_b r_a r_b p_a p_b : Vec3 K) : K :=
  min (stage2_d_mags sqrt c_a c_b r_a r_b p_a p_b).1
    (min (stage2_d_mags sqrt c_a c_b r_a r_b p_a p_b).2.1
      (min (stage2_d_mags sqrt c_a c_b r_a r_b p_a p_b).2.2.1
        (stage2_d_mags sqrt c_a c_b r_a r_b p_a p_b).2.2.2))

/-- The four branches of the Stage 2 cascade (lines 168-179), named after the
distance that selects them. -/
inductive TieBreak where
  | d1
  | d2
  | d3
  | d4
  deriving DecidableEq, Repr

/-- The branch the cascade of lines 168-179 takes, from the four magnitudes. -/
def tie_break_cascade (d1_mag d2_mag d3_mag d4_mag : K) : TieBreak :=
  if d1_mag ≤ min d2_mag (min d3_mag d4_mag) then TieBreak.d1
  else if d2_mag ≤ min d3_mag d4_mag then TieBreak.d2
  else if d3_mag ≤ d4_mag then TieBreak.d3
  else TieBreak.d4

/-- The assignment each branch of the cascade makes (lines 169, 172, 175,
178), applied to the points `(c_a, c_b)` Stage 1 produced. -/
def tie_break_assign (branch : TieBreak) (c_a c_b r_a r_b p_a p_b : Vec3 K) :
    Vec3 K × Vec3 K :=
  match branch with
  | TieBreak.d1 => (r_a, c_b)
  | TieBreak.d2 => (fun n => r_a n + p_a n, c_b)
  | TieBreak.d3 => (c_a, r_b)
  | TieBreak.d4 => (c_a, fun n => r_b n + p_b n)

/-- The tie-break rule in the words of the spec (section 4.2): in the fixed
order `d1, d2, d3, d4`, the first distance that is at most the minimum of the
remaining three wins.  `none` when no distance qualifies. -/
def tie_break_rule_spec (d1 d2 d3 d4 : K) : Option TieBreak :=
  if d1 ≤ min d2 (min d3 d4) then some TieBreak.d1
  else if d2 ≤ min d1 (min d3 d4) then some TieBreak.d2
  else if d3 ≤ min d1 (min d2 d4) then some TieBreak.d3
  else if d4 ≤ min d1 (min d2 d3) then some TieBreak.d4
  else none

/-- The two divisors of lines 226-227, `dot_product_3x1(l_a, n_b)` and
`dot_product_3x1(l_b, n_a)`, computed as in lines 215-221. -/
def shortest_distance_divisors (sqrt : K → K) (p_a p_b : Vec3 K) : K × K :=
  let l_a := normalize sqrt p_a
  let l_b := normalize sqrt p_b
  let l_a_cross_l_b := cross_product l_a l_b
  let n_a := cross_product l_a l_a_cross_l_b
  let n_b := cross_product l_b l_a_cross_l_b
  (dot_product_3x1 l_a n_b, dot_product_3x1 l_b n_a)

/-- Round to the nearest integer, ties to the even one. -/
def round_half_even [FloorRing K] (y : K) : ℤ :=
  if y - ⌊y⌋ < 1 / 2 then ⌊y⌋
  else if 1 / 2 < y - ⌊y⌋ then ⌊y⌋ + 1
  else if ⌊y⌋ % 2 = 0 then ⌊y⌋
  else ⌊y⌋ + 1

/-- The value a real number takes in a C++ `float` (IEEE 754 binary32, round
to nearest, ties to even): the nearest multiple of `2 ^ (e - 23)`, with `e`
the binary exponent of `x`, and of `2 ^ (-149)` in the subnormal range.
Overflow to infinity is not modelled. -/
def round_binary32 [FloorRing K] (x : K) : K :=
  if x = 0 then 0
  else
    (round_half_even (x / (2 : K) ^ max (Int.log 2 |x| - 23) (-149)) : K)
      * (2 : K) ^ max (Int.log 2 |x| - 23) (-149)

/-- Modelled from the spec: `dot_product_3x1` (declared in `rod_math`, not part
of this source file) as it runs on `float` operands: the spec's dot product
with every product and every sum rounded by `fl`. -/
def dot_product_3x1_fl (fl : K → K) (a b : Vec3 K) : K :=
  fl (fl (fl (a 0 * b 0) + fl (a 1 * b 1)) + fl (a 2 * b 2))

/-- Modelled from the spec: `rod::absolute` (declared in `rod_math`) on `float`
operands: the spec's Euclidean norm with every product and sum rounded by
`fl`; `sqrt` is the square root of the `float` format. -/
def absolute_fl (fl sqrt : K → K) (a : Vec3 K) : K :=
  sqrt (fl (fl (fl (a 0 * a 0) + fl (a 1 * a 1)) + fl (a 2 * a 2)))

/-- Modelled from the spec: `cross_product` (declared in `rod_math`) on `float`
operands: the spec's cross product with every product and every difference
rounded by `fl`. -/
def cross_product_fl (fl : K → K) (a b : Vec3 K) : Vec3 K :=
  ![fl (fl (a 1 * b 2) - fl (a 2 * b 1)), fl (fl (a 2 * b 0) - fl (a 0 * b 2)),
    fl (fl (a 0 * b 1) - fl (a 1 * b 0))]

/-- Modelled from the spec: `normalize` (declared in `rod_math`) on `float`
operands: `l = p / |p|` with every quotient rounded by `fl`. -/
def normalize_fl (fl sqrt : K → K) (a : Vec3 K) : Vec3 K :=
  fun n => fl (a n / absolute_fl fl sqrt a)

/-- The two divisors of lines 226-227 as the `float` code computes them
(lines 215-221 with the rounded helpers). -/
def shortest_distance_divisors_fl (fl sqrt : K → K) (p_a p_b : Vec3 K) : K × K :=
  let l_a := normalize_fl fl sqrt p_a
  let l_b := normalize_fl fl sqrt p_b
  let l_a_cross_l_b := cross_product_fl fl l_a l_b
  let n_a := cross_product_fl fl l_a l_a_cross_l_b
  let n_b := cross_product_fl fl l_b l_a_cross_l_b
  (dot_product_3x1_fl fl l_a n_b, dot_product_3x1_fl fl l_b n_a)

/-! ## Square-root-free forms used in the proofs -/

/-- Squared Euclidean norm of a vector (no square root involved). -/
def norm_sq (a : Vec3 K) : K := a 0 * a 0 + a 1 * a 1 + a 2 * a 2

/-- Stage 2 with every comparison of magnitudes replaced by the comparison of
the squared magnitudes. -/
def stage2_sq (c_a c_b r_a r_b p_a p_b : Vec3 K) : Vec3 K × Vec3 K :=
  let r_a2 : Vec3 K := fun n => r_a n + p_a n
  let r_b2 : Vec3 K := fun n => r_b n + p_b n
  let c_ab : Vec3 K := fun n => c_b n - c_a n
  let d1 : Vec3 K := fun n => c_b n - r_a n
  let d2 : Vec3 K := fun n => c_b n - r_a2 n
  let d3 : Vec3 K := fun n => c_a n - r_b n
  let d4 : Vec3 K := fun n => c_a n - r_b2 n
  if (99 / 100) * (99 / 100) * min (norm_sq d1) (min (norm_sq d2) (min (norm_sq d3) (norm_sq d4)))
      < norm_sq c_ab then
    if norm_sq d1 ≤ min (norm_sq d2) (min (norm_sq d3) (norm_sq d4)) then (r_a, c_b)
    else if norm_sq d2 ≤ min (norm_sq d3) (norm_sq d4) then (r_a2, c_b)
    else if norm_sq d3 ≤ norm_sq d4 then (c_a, r_b)
    else (c_a, r_b2)
  else (c_a, c_b)

/-- Stage 1 with `p_a_sq`, `p_b_sq` computed without a square root. -/
def stage1_sq (c_a c_b r_a r_b p_a p_b : Vec3 K) : Vec3 K × Vec3 K :=
  let r_a2 : Vec3 K := fun n => r_a n + p_a n
  let r_b2 : Vec3 K := fun n => r_b n + p_b n
  let rc_a : Vec3 K := fun n => c_a n - r_a n
  let rc_b : Vec3 K := fun n => c_b n - r_b n
  let dot_a := dot_product_3x1 p_a rc_a
  let dot_b := dot_product_3x1 p_b rc_b
  (stage1_c_a dot_a (norm_sq p_a) c_a r_a r_a2, stage1_c_b dot_a dot_b (norm_sq p_b) c_b r_b r_b2)

/-- The raw infinite-line points written with the segment vectors themselves
instead of the unit directions. -/
def raw_sq (p_a p_b r_a r_b : Vec3 K) : Vec3 K × Vec3 K :=
  let c := cross_product p_a p_b
  let n_a := cross_product p_a c
  let n_b := cross_product p_b c
  let r_ab : Vec3 K := fun n => r_b n - r_a n
  let r_ba : Vec3 K := fun n => r_a n - r_b n
  (fun n => r_a n + dot_product_3x1 r_ab n_b / dot_product_3x1 p_a n_b * p_a n,
   fun n => r_b n + dot_product_3x1 r_ba n_a / dot_product_3x1 p_b n_a * p_b n)

/-! ## Lemmas on the norm and the square root -/

theorem real_isSqrt : IsSqrt Real.sqrt :=
  ⟨Real.sqrt_nonneg, fun _ hx => Real.mul_self_sqrt hx⟩

theorem norm_sq_nonneg (a : Vec3 K) : 0 ≤ norm_sq a := by
  unfold norm_sq
  have h0 := mul_self_nonneg (a 0)
  have h1 := mul_self_nonneg (a 1)
  have h2 := mul_self_nonneg (a 2)
  linarith

theorem absolute_def (sqrt : K → K) (a : Vec3 K) : absolute sqrt a = sqrt (norm_sq a) := rfl

theorem absolute_nonneg {sqrt : K → K} (hs : IsSqrt sqrt) (a : Vec3 K) : 0 ≤ absolute sqrt a :=
  hs.nonneg _

theorem absolute_mul_self {sqrt : K → K} (hs : IsSqrt sqrt) (a : Vec3 K) :
    absolute sqrt a * absolute sqrt a = norm_sq a :=
  hs.mul_self _ (norm_sq_nonneg a)

theorem absolute_le_absolute {sqrt : K → K} (hs : IsSqrt sqrt) (a b : Vec3 K) :
    absolute sqrt a ≤ absolute sqrt b ↔ norm_sq a ≤ norm_sq b := by
  rw [mul_self_le_mul_self_iff (absolute_nonneg hs a) (absolute_nonneg hs b),
    absolute_mul_self hs, absolute_mul_self hs]

theorem absolute_lt_iff {sqrt : K → K} (hs : IsSqrt sqrt) (a : Vec3 K) (c : K) :
    absolute sqrt a < c ↔ 0 < c ∧ norm_sq a < c * c := by
  constructor
  · intro h
    have hc : 0 < c := lt_of_le_of_lt (absolute_nonneg hs a) h
    refine ⟨hc, ?_⟩
    rw [← absolute_mul_self hs a]
    exact (mul_self_lt_mul_self_iff (absolute_nonneg hs a) hc.le).1 h
  · rintro ⟨hc, h⟩
    rw [← absolute_mul_self hs a] at h
    exact (mul_self_lt_mul_self_iff (absolute_nonneg hs a) hc.le).2 h

theorem scaled_lt_absolute {sqrt : K → K} (hs : IsSqrt sqrt) (q : K) (hq : 0 ≤ q) (a e : Vec3 K) :
    q * absolute sqrt a < absolute sqrt e ↔ q * q * norm_sq a < norm_sq e := by
  rw [mul_self_lt_mul_self_iff (mul_nonneg hq (absolute_nonneg hs a)) (absolute_nonneg hs e),
    absolute_mul_self hs, ← absolute_mul_self hs a]
  constructor <;> intro h <;> linarith

theorem trigger_iff {sqrt : K → K} (hs : IsSqrt sqrt) (q : K) (hq : 0 ≤ q) (e a b c d : Vec3 K) :
    absolute sqrt e > q * min (absolute sqrt a) (min (absolute sqrt b)
        (min (absolute sqrt c) (absolute sqrt d)))
      ↔ q * q * min (norm_sq a) (min (norm_sq b) (min (norm_sq c) (norm_sq d))) < norm_sq e := by
  have hqq : 0 ≤ q * q := mul_nonneg hq hq
  rw [gt_iff_lt, mul_min_of_nonneg _ _ hq, mul_min_of_nonneg _ _ hq, mul_min_of_nonneg _ _ hq,
    mul_min_of_nonneg _ _ hqq, mul_min_of_nonneg _ _ hqq, mul_min_of_nonneg _ _ hqq]
  simp only [min_lt_iff, scaled_lt_absolute hs q hq]

theorem le_min3_iff {sqrt : K → K} (hs : IsSqrt sqrt) (a b c d : Vec3 K) :
    absolute sqrt a ≤ min (absolute sqrt b) (min (absolute sqrt c) (absolute sqrt d))
      ↔ norm_sq a ≤ min (norm_sq b) (min (norm_sq c) (norm_sq d)) := by
  simp only [le_min_iff, absolute_le_absolute hs]

theorem le_min2_iff {sqrt : K → K} (hs : IsSqrt sqrt) (a b c : Vec3 K) :
    absolute sqrt a ≤ min (absolute sqrt b) (absolute sqrt c)
      ↔ norm_sq a ≤ min (norm_sq b) (norm_sq c) := by
  simp only [le_min_iff, absolute_le_absolute hs]

theorem stage2_eq_sq {sqrt : K → K} (hs : IsSqrt sqrt) (c_a c_b r_a r_b p_a p_b : Vec3 K) :
    rod_distance_correction_stage2 sqrt c_a c_b r_a r_b p_a p_b
      = stage2_sq c_a c_b r_a r_b p_a p_b := by
  unfold rod_distance_correction_stage2 stage2_sq
  simp only [trigger_iff hs (99 / 100) (by norm_num), le_min3_iff hs, le_min2_iff hs,
    absolute_le_absolute hs]

theorem stage1_eq_sq {sqrt : K → K} (hs : IsSqrt sqrt) (c_a c_b r_a r_b p_a p_b : Vec3 K) :
    rod_distance_correction_stage1 sqrt c_a c_b r_a r_b p_a p_b
      = stage1_sq c_a c_b r_a r_b p_a p_b := by
  unfold rod_distance_correction_stage1 stage1_sq
  simp only [absolute_mul_self hs]

theorem norm_sq_pos {a : Vec3 K} (h : a ≠ 0) : 0 < norm_sq a := by
  rcases lt_or_eq_of_le (norm_sq_nonneg a) with h1 | h1
  · exact h1
  · exfalso
    apply h
    unfold norm_sq at h1
    have h0 := mul_self_nonneg (a 0)
    have h1' := mul_self_nonneg (a 1)
    have h2 := mul_self_nonneg (a 2)
    have e0 : a 0 * a 0 = 0 := by linarith
    have e1 : a 1 * a 1 = 0 := by linarith
    have e2 : a 2 * a 2 = 0 := by linarith
    funext n
    fin_cases n
    · exact mul_self_eq_zero.1 e0
    · exact mul_self_eq_zero.1 e1
    · exact mul_self_eq_zero.1 e2

theorem absolute_pos {sqrt : K → K} (hs : IsSqrt sqrt) {a : Vec3 K} (h : a ≠ 0) :
    0 < absolute sqrt a := by
  rcases lt_or_eq_of_le (absolute_nonneg hs a) with h1 | h1
  · exact h1
  · exfalso
    have h2 := absolute_mul_self hs a
    rw [← h1] at h2
    have h3 := norm_sq_pos h
    simp at h2
    linarith

theorem ratio_rescale (N D m g x : K) (hm : m ≠ 0) (hg : g ≠ 0) :
    N / m / (D / (m * g)) * (x / g) = N / D * x := by
  by_cases hD : D = 0
  · simp [hD]
  · field_simp
    ring

theorem dot_cross_b_scaled (α β : K) (p q r : Vec3 K) :
    dot_product_3x1 r
        (cross_product (fun i => q i / β) (cross_product (fun i => p i / α) (fun i => q i / β)))
      = dot_product_3x1 r (cross_product q (cross_product p q)) / (α * β * β) := by
  simp only [dot_product_3x1, cross_product, Matrix.cons_val_zero, Matrix.cons_val_one,
    Matrix.head_cons, Matrix.cons_val_two, Matrix.tail_cons]
  ring

theorem dot_cross_a_scaled (α β : K) (p q r : Vec3 K) :
    dot_product_3x1 r
        (cross_product (fun i => p i / α) (cross_product (fun i => p i / α) (fun i => q i / β)))
      = dot_product_3x1 r (cross_product p (cross_product p q)) / (α * α * β) := by
  simp only [dot_product_3x1, cross_product, Matrix.cons_val_zero, Matrix.cons_val_one,
    Matrix.head_cons, Matrix.cons_val_two, Matrix.tail_cons]
  ring

theorem dot_scaled_left (γ : K) (p v : Vec3 K) :
    dot_product_3x1 (fun i => p i / γ) v = dot_product_3x1 p v / γ := by
  simp only [dot_product_3x1]
  ring

theorem raw_eq_sq {sqrt : K → K} (hs : IsSqrt sqrt) (p_a p_b r_a r_b : Vec3 K)
    (ha : p_a ≠ 0) (hb : p_b ≠ 0) :
    shortest_distance_raw sqrt p_a p_b r_a r_b = raw_sq p_a p_b r_a r_b := by
  have hα := (absolute_pos hs ha).ne'
  have hβ := (absolute_pos hs hb).ne'
  unfold shortest_distance_raw raw_sq normalize
  generalize absolute sqrt p_a = α at hα
  generalize absolute sqrt p_b = β at hβ
  refine Prod.ext (funext fun n => ?_) (funext fun n => ?_)
  · dsimp only
    rw [dot_scaled_left, dot_cross_b_scaled, dot_cross_b_scaled,
      div_div (dot_product_3x1 p_a _) (α * β * β) α,
      ratio_rescale _ _ (α * β * β) α _ (by positivity) hα]
  · dsimp only
    rw [dot_scaled_left, dot_cross_a_scaled, dot_cross_a_scaled,
      div_div (dot_product_3x1 p_b _) (α * α * β) β,
      ratio_rescale _ _ (α * α * β) β _ (by positivity) hβ]

theorem ne_zero_of_component {v : Vec3 K} (n : Fin 3) (h : v n ≠ 0) : v ≠ 0 := by
  intro h0
  apply h
  rw [h0]
  rfl

theorem vec3_eq_iff {α : Type} (v : Fin 3 → α) (a b c : α) :
    v = ![a, b, c] ↔ v 0 = a ∧ v 1 = b ∧ v 2 = c := by
  constructor
  · intro h
    subst h
    exact ⟨rfl, rfl, rfl⟩
  · rintro ⟨h0, h1, h2⟩
    funext n
    fin_cases n
    · exact h0
    · exact h1
    · exact h2

theorem shortest_eq_sq {sqrt : K → K} (hs : IsSqrt sqrt) (p_a p_b r_a r_b : Vec3 K)
    (ha : p_a ≠ 0) (hb : p_b ≠ 0) :
    get_shortest_distance_to_rod sqrt p_a p_b r_a r_b
      = stage2_sq (stage1_sq (raw_sq p_a p_b r_a r_b).1 (raw_sq p_a p_b r_a r_b).2 r_a r_b p_a p_b).1
          (stage1_sq (raw_sq p_a p_b r_a r_b).1 (raw_sq p_a p_b r_a r_b).2 r_a r_b p_a p_b).2
          r_a r_b p_a p_b := by
  unfold get_shortest_distance_to_rod rod_distance_correction
  rw [stage2_eq_sq hs, stage1_eq_sq hs, raw_eq_sq hs _ _ _ _ ha hb]

/-- The solver traced through its three steps: raw points, Stage 1, Stage 2. -/
theorem shortest_eval {sqrt : K → K} (hs : IsSqrt sqrt) (p_a p_b r_a r_b : Vec3 K)
    (ha : p_a ≠ 0) (hb : p_b ≠ 0) (raw s1 out : Vec3 K × Vec3 K)
    (hraw : raw_sq p_a p_b r_a r_b = raw)
    (h1 : stage1_sq raw.1 raw.2 r_a r_b p_a p_b = s1)
    (h2 : stage2_sq s1.1 s1.2 r_a r_b p_a p_b = out) :
    get_shortest_distance_to_rod sqrt p_a p_b r_a r_b = out := by
  rw [shortest_eq_sq hs _ _ _ _ ha hb, hraw, h1, h2]

theorem dot_pa_nb (p q : Vec3 K) :
    dot_product_3x1 p (cross_product q (cross_product p q)) = norm_sq (cross_product p q) := by
  simp only [dot_product_3x1, cross_product, norm_sq, Matrix.cons_val_zero, Matrix.cons_val_one,
    Matrix.head_cons, Matrix.cons_val_two, Matrix.tail_cons]
  ring

theorem dot_pb_na (p q : Vec3 K) :
    dot_product_3x1 q (cross_product p (cross_product p q)) = -norm_sq (cross_product p q) := by
  simp only [dot_product_3x1, cross_product, norm_sq, Matrix.cons_val_zero, Matrix.cons_val_one,
    Matrix.head_cons, Matrix.cons_val_two, Matrix.tail_cons]
  ring

theorem orth_core (p q ra rb : Vec3 K) (σ τ D : K)
    (hD : D = norm_sq (cross_product p q))
    (hσ : σ * D = dot_product_3x1 (fun n => rb n - ra n) (cross_product q (cross_product p q)))
    (hτ : τ * -D = dot_product_3x1 (fun n => ra n - rb n) (cross_product p (cross_product p q))) :
    D * dot_product_3x1 p (fun n => (rb n + τ * q n) - (ra n + σ * p n)) = 0
    ∧ D * dot_product_3x1 q (fun n => (rb n + τ * q n) - (ra n + σ * p n)) = 0 := by
  simp only [dot_product_3x1, cross_product, norm_sq, Matrix.cons_val_zero, Matrix.cons_val_one,
    Matrix.head_cons, Matrix.cons_val_two, Matrix.tail_cons] at hD hσ hτ ⊢
  constructor
  · linear_combination (-(p 0 * p 0 + p 1 * p 1 + p 2 * p 2)) * hσ
      + (-(p 0 * q 0 + p 1 * q 1 + p 2 * q 2)) * hτ
      + (p 0 * (rb 0 - ra 0) + p 1 * (rb 1 - ra 1) + p 2 * (rb 2 - ra 2)) * hD
  · linear_combination (-(p 0 * q 0 + p 1 * q 1 + p 2 * q 2)) * hσ
      + (-(q 0 * q 0 + q 1 * q 1 + q 2 * q 2)) * hτ
      + (q 0 * (rb 0 - ra 0) + q 1 * (rb 1 - ra 1) + q 2 * (rb 2 - ra 2)) * hD

theorem raw_sq_orthogonal (p_a p_b r_a r_b : Vec3 K) (h : cross_product p_a p_b ≠ 0) :
    dot_product_3x1 p_a
        (fun n => (raw_sq p_a p_b r_a r_b).2 n - (raw_sq p_a p_b r_a r_b).1 n) = 0
    ∧ dot_product_3x1 p_b
        (fun n => (raw_sq p_a p_b r_a r_b).2 n - (raw_sq p_a p_b r_a r_b).1 n) = 0 := by
  have hD : norm_sq (cross_product p_a p_b) ≠ 0 := (norm_sq_pos h).ne'
  have hD' : -norm_sq (cross_product p_a p_b) ≠ 0 := neg_ne_zero.2 hD
  unfold raw_sq
  dsimp only
  rw [dot_pa_nb, dot_pb_na]
  have key := orth_core p_a p_b r_a r_b
    (dot_product_3x1 (fun n => r_b n - r_a n) (cross_product p_b (cross_product p_a p_b))
      / norm_sq (cross_product p_a p_b))
    (dot_product_3x1 (fun n => r_a n - r_b n) (cross_product p_a (cross_product p_a p_b))
      / -norm_sq (cross_product p_a p_b))
    (norm_sq (cross_product p_a p_b)) rfl (div_mul_cancel₀ _ hD) (div_mul_cancel₀ _ hD')
  exact ⟨(mul_eq_zero.1 key.1).resolve_left hD, (mul_eq_zero.1 key.2).resolve_left hD⟩

theorem norm_sq_ge_of_orthogonal (p q ra rb : Vec3 K) (σ τ s t : K)
    (h1 : dot_product_3x1 p (fun n => (rb n + τ * q n) - (ra n + σ * p n)) = 0)
    (h2 : dot_product_3x1 q (fun n => (rb n + τ * q n) - (ra n + σ * p n)) = 0) :
    norm_sq (fun n => (rb n + τ * q n) - (ra n + σ * p n))
      ≤ norm_sq (fun n => (rb n + t * q n) - (ra n + s * p n)) := by
  have hu := norm_sq_nonneg (fun n => (t - τ) * q n - (s - σ) * p n)
  simp only [dot_product_3x1, norm_sq] at h1 h2 hu ⊢
  linear_combination hu - 2 * (t - τ) * h2 + 2 * (s - σ) * h1

theorem absolute_lt_absolute {sqrt : K → K} (hs : IsSqrt sqrt) (a b : Vec3 K) :
    absolute sqrt a < absolute sqrt b ↔ norm_sq a < norm_sq b := by
  rw [← not_le, ← not_le, absolute_le_absolute hs]

/-! ## The solver on the concrete inputs used below -/

theorem eval_scenario1 :
    get_shortest_distance_to_rod Real.sqrt ![1, 0, 0] ![0, 2, 0] ![0, 0, 0] ![1 / 2, -1, 0]
      = (![1 / 2, 0, 0], ![1 / 2, 0, 0]) :=
  shortest_eval real_isSqrt _ _ _ _ (ne_zero_of_component 0 (by simp))
    (ne_zero_of_component 1 (by simp))
    (![1 / 2, 0, 0], ![1 / 2, 0, 0])
    (![1 / 2, 0, 0], ![1 / 2, 0, 0])
    _
    (by norm_num [raw_sq, cross_product, dot_product_3x1, vec3_eq_iff])
    (by norm_num [stage1_sq, stage1_c_a, stage1_c_b, dot_product_3x1, norm_sq, vec3_eq_iff])
    (by norm_num [stage2_sq, norm_sq, vec3_eq_iff])

theorem eval_outside_b :
    get_shortest_distance_to_rod Real.sqrt ![1, 0, 0] ![0, 1, 0] ![0, 0, 0] ![-1, -2, 0]
      = (![0, 0, 0], ![-1, 0, 0]) :=
  shortest_eval real_isSqrt _ _ _ _ (ne_zero_of_component 0 (by simp))
    (ne_zero_of_component 1 (by simp))
    (![-1, 0, 0], ![-1, 0, 0])
    (![0, 0, 0], ![-1, 0, 0])
    _
    (by norm_num [raw_sq, cross_product, dot_product_3x1, vec3_eq_iff])
    (by norm_num [stage1_sq, stage1_c_a, stage1_c_b, dot_product_3x1, norm_sq, vec3_eq_iff])
    (by norm_num [stage2_sq, norm_sq, vec3_eq_iff])

theorem eval_long_crossing :
    get_shortest_distance_to_rod Real.sqrt ![24, 0, 0] ![0, 10, 0] ![0, 0, 0] ![12, -5, 0]
      = (![12, 0, 0], ![12, -5, 0]) :=
  shortest_eval real_isSqrt _ _ _ _ (ne_zero_of_component 0 (by simp))
    (ne_zero_of_component 1 (by simp))
    (![12, 0, 0], ![12, 0, 0])
    (![12, 0, 0], ![12, 5, 0])
    _
    (by norm_num [raw_sq, cross_product, dot_product_3x1, vec3_eq_iff])
    (by norm_num [stage1_sq, stage1_c_a, stage1_c_b, dot_product_3x1, norm_sq, vec3_eq_iff])
    (by norm_num [stage2_sq, norm_sq, vec3_eq_iff])

theorem eval_scenario3 :
    get_shortest_distance_to_rod Real.sqrt ![1, 0, 0] ![0, 0, 1] ![0, 0, 0] ![1 / 2, 1, 0]
      = (![1 / 2, 0, 0], ![1 / 2, 1, 0]) :=
  shortest_eval real_isSqrt _ _ _ _ (ne_zero_of_component 0 (by simp))
    (ne_zero_of_component 2 (by simp))
    (![1 / 2, 0, 0], ![1 / 2, 1, 0])
    (![1 / 2, 0, 0], ![1 / 2, 1, 0])
    _
    (by norm_num [raw_sq, cross_product, dot_product_3x1, vec3_eq_iff])
    (by norm_num [stage1_sq, stage1_c_a, stage1_c_b, dot_product_3x1, norm_sq, vec3_eq_iff])
    (by norm_num [stage2_sq, norm_sq, vec3_eq_iff])

theorem absolute_eq {sqrt : K → K} (hs : IsSqrt sqrt) (v : Vec3 K) (a : K) (ha : 0 ≤ a)
    (h : norm_sq v = a * a) : absolute sqrt v = a := by
  have h1 := absolute_mul_self hs v
  rw [h] at h1
  exact (mul_self_inj (absolute_nonneg hs v) ha).1 h1

theorem separation_scenario3 :
    absolute Real.sqrt (fun n =>
        (get_shortest_distance_to_rod Real.sqrt ![1, 0, 0] ![0, 0, 1] ![0, 0, 0]
          ![1 / 2, 1, 0]).2 n
        - (get_shortest_distance_to_rod Real.sqrt ![1, 0, 0] ![0, 0, 1] ![0, 0, 0]
          ![1 / 2, 1, 0]).1 n) = 1 := by
  rw [eval_scenario3]
  exact absolute_eq real_isSqrt _ 1 (by norm_num) (by norm_num [norm_sq])

/-! ## The two branches of `assign_neighbours_to_elements` -/

theorem assign_of_lt (sqrt : K → K) (p_a p_b r_a r_b : Vec3 K) (radius_a radius_b : K)
    (s : NeighbourState K)
    (h : absolute sqrt (fun n => (get_shortest_distance_to_rod sqrt p_a p_b r_a r_b).2 n
        - (get_shortest_distance_to_rod sqrt p_a p_b r_a r_b).1 n) < radius_a + radius_b) :
    assign_neighbours_to_elements sqrt p_a p_b r_a r_b radius_a radius_b s
      = { element_a_neighbours := s.element_a_neighbours
            ++ [(get_shortest_distance_to_rod sqrt p_a p_b r_a r_b).1 0,
                (get_shortest_distance_to_rod sqrt p_a p_b r_a r_b).1 1,
                (get_shortest_distance_to_rod sqrt p_a p_b r_a r_b).1 2,
                (get_shortest_distance_to_rod sqrt p_a p_b r_a r_b).2 0,
                (get_shortest_distance_to_rod sqrt p_a p_b r_a r_b).2 1,
                (get_shortest_distance_to_rod sqrt p_a p_b r_a r_b).2 2, radius_b]
          element_b_neighbours := s.element_b_neighbours
            ++ [(get_shortest_distance_to_rod sqrt p_a p_b r_a r_b).2 0,
                (get_shortest_distance_to_rod sqrt p_a p_b r_a r_b).2 1,
                (get_shortest_distance_to_rod sqrt p_a p_b r_a r_b).2 2,
                (get_shortest_distance_to_rod sqrt p_a p_b r_a r_b).1 0,
                (get_shortest_distance_to_rod sqrt p_a p_b r_a r_b).1 1,
                (get_shortest_distance_to_rod sqrt p_a p_b r_a r_b).1 2, radius_a]
          in_range := true } := by
  unfold assign_neighbours_to_elements
  dsimp only
  rw [if_pos h]
  simp

theorem assign_of_not_lt (sqrt : K → K) (p_a p_b r_a r_b : Vec3 K) (radius_a radius_b : K)
    (s : NeighbourState K)
    (h : ¬ absolute sqrt (fun n => (get_shortest_distance_to_rod sqrt p_a p_b r_a r_b).2 n
        - (get_shortest_distance_to_rod sqrt p_a p_b r_a r_b).1 n) < radius_a + radius_b) :
    assign_neighbours_to_elements sqrt p_a p_b r_a r_b radius_a radius_b s
      = { element_a_neighbours := s.element_a_neighbours
          element_b_neighbours := s.element_b_neighbours
          in_range := false } := by
  unfold assign_neighbours_to_elements
  dsimp only
  rw [if_neg h]

/-! ## Scaling of the norm, and Stage 1 applied twice -/

theorem absolute_scaled {sqrt : K → K} (hs : IsSqrt sqrt) (r p c : Vec3 K) (t : K) (ht : 0 ≤ t)
    (hc : ∀ n, c n = r n + t * p n) :
    absolute sqrt (fun n => c n - r n) = t * absolute sqrt p := by
  apply absolute_eq hs _ _ (mul_nonneg ht (absolute_nonneg hs p))
  have h := absolute_mul_self hs p
  simp only [norm_sq, hc] at h ⊢
  linear_combination (-(t * t)) * h

theorem exists_component_ne_zero {v : Vec3 K} (h : v ≠ 0) : ∃ n, v n ≠ 0 := by
  by_contra hcon
  push_neg at hcon
  exact h (funext hcon)

theorem dot_sub_self (p r : Vec3 K) : dot_product_3x1 p (fun n => r n - r n) = 0 := by
  simp [dot_product_3x1]

theorem dot_end_sub (p r : Vec3 K) :
    dot_product_3x1 p (fun n => (fun m => r m + p m) n - r n) = norm_sq p := by
  simp [dot_product_3x1, norm_sq]

/-- The value of `dot_a` recomputed from the Stage 1 value of `c_a`. -/
theorem dot_after_stage1_c_a (p_a r_a c_a : Vec3 K) :
    dot_product_3x1 p_a (fun n =>
        stage1_c_a (dot_product_3x1 p_a (fun n => c_a n - r_a n)) (norm_sq p_a) c_a r_a
          (fun n => r_a n + p_a n) n - r_a n)
      = if dot_product_3x1 p_a (fun n => c_a n - r_a n) ≤ 0 then 0
        else if dot_product_3x1 p_a (fun n => c_a n - r_a n) ≥ norm_sq p_a then norm_sq p_a
        else dot_product_3x1 p_a (fun n => c_a n - r_a n) := by
  unfold stage1_c_a
  split_ifs
  · exact dot_sub_self p_a r_a
  · exact dot_end_sub p_a r_a
  · rfl

theorem stage1_sq_idem (c_a c_b r_a r_b p_a p_b : Vec3 K) (ha : p_a ≠ 0) (hb : p_b ≠ 0) :
    stage1_sq (stage1_sq c_a c_b r_a r_b p_a p_b).1 (stage1_sq c_a c_b r_a r_b p_a p_b).2
        r_a r_b p_a p_b
      = stage1_sq c_a c_b r_a r_b p_a p_b := by
  have hA := norm_sq_pos ha
  have hB := norm_sq_pos hb
  unfold stage1_sq
  dsimp only
  rw [dot_after_stage1_c_a]
  generalize dot_product_3x1 p_a (fun n => c_a n - r_a n) = da
  refine Prod.ext ?_ ?_
  · dsimp only
    unfold stage1_c_a
    split_ifs <;> first | rfl | (exfalso; linarith)
  · dsimp only
    unfold stage1_c_b
    by_cases h1 : dot_product_3x1 p_b (fun n => c_b n - r_b n) ≤ 0
    · simp only [if_pos h1, dot_sub_self, le_refl, if_true]
    · simp only [if_neg h1]
      by_cases h2 : da ≥ norm_sq p_b
      · simp only [if_pos h2, dot_end_sub]
        split_ifs <;> first | rfl | (exfalso; linarith)
      · simp only [if_neg h2, if_neg h1]
        split_ifs <;> first | rfl | (exfalso; linarith)

theorem stage1_idem {sqrt : K → K} (hs : IsSqrt sqrt) (c_a c_b r_a r_b p_a p_b : Vec3 K)
    (ha : p_a ≠ 0) (hb : p_b ≠ 0) :
    rod_distance_correction_stage1 sqrt
        (rod_distance_correction_stage1 sqrt c_a c_b r_a r_b p_a p_b).1
        (rod_distance_correction_stage1 sqrt c_a c_b r_a r_b p_a p_b).2 r_a r_b p_a p_b
      = rod_distance_correction_stage1 sqrt c_a c_b r_a r_b p_a p_b := by
  rw [stage1_eq_sq hs, stage1_eq_sq hs]
  exact stage1_sq_idem c_a c_b r_a r_b p_a p_b ha hb

/-- When the 99% threshold of Stage 2 is not exceeded by the Stage 1 points,
the corrector returns the Stage 1 points. -/
theorem correction_eq_stage1_of_idle (sqrt : K → K) (c_a c_b r_a r_b p_a p_b : Vec3 K)
    (h : ¬ absolute sqrt (fun n =>
          (rod_distance_correction_stage1 sqrt c_a c_b r_a r_b p_a p_b).2 n
          - (rod_distance_correction_stage1 sqrt c_a c_b r_a r_b p_a p_b).1 n)
        > (99 / 100) * min
          (absolute sqrt (fun n =>
            (rod_distance_correction_stage1 sqrt c_a c_b r_a r_b p_a p_b).2 n - r_a n))
          (min (absolute sqrt (fun n =>
              (rod_distance_correction_stage1 sqrt c_a c_b r_a r_b p_a p_b).2 n
              - (r_a n + p_a n)))
            (min (absolute sqrt (fun n =>
                (rod_distance_correction_stage1 sqrt c_a c_b r_a r_b p_a p_b).1 n - r_b n))
              (absolute sqrt (fun n =>
                (rod_distance_correction_stage1 sqrt c_a c_b r_a r_b p_a p_b).1 n
                - (r_b n + p_b n)))))) :
    rod_distance_correction sqrt c_a c_b r_a r_b p_a p_b
      = rod_distance_correction_stage1 sqrt c_a c_b r_a r_b p_a p_b := by
  unfold rod_distance_correction rod_distance_correction_stage2
  dsimp only
  rw [if_neg h]

theorem eval_correction_first :
    rod_distance_correction Real.sqrt ![1 / 2, 0, 0] ![0, 2, 0] ![0, 0, 0] ![0, 1, 0]
        ![1, 0, 0] ![0, 2, 0] = (![1 / 2, 0, 0], ![0, 1, 0]) := by
  unfold rod_distance_correction
  rw [stage2_eq_sq real_isSqrt, stage1_eq_sq real_isSqrt]
  norm_num [stage1_sq, stage2_sq, stage1_c_a, stage1_c_b, dot_product_3x1, norm_sq, vec3_eq_iff]

theorem eval_correction_second :
    rod_distance_correction Real.sqrt ![1 / 2, 0, 0] ![0, 1, 0] ![0, 0, 0] ![0, 1, 0]
        ![1, 0, 0] ![0, 2, 0] = (![0, 0, 0], ![0, 1, 0]) := by
  unfold rod_distance_correction
  rw [stage2_eq_sq real_isSqrt, stage1_eq_sq real_isSqrt]
  norm_num [stage1_sq, stage2_sq, stage1_c_a, stage1_c_b, dot_product_3x1, norm_sq, vec3_eq_iff]

theorem eval_correction_idle :
    rod_distance_correction Real.sqrt ![1 / 2, 0, 0] ![1 / 2, 0, 0] ![0, 0, 0] ![1 / 2, -1, 0]
        ![1, 0, 0] ![0, 2, 0] = (![1 / 2, 0, 0], ![1 / 2, 0, 0]) := by
  unfold rod_distance_correction
  rw [stage2_eq_sq real_isSqrt, stage1_eq_sq real_isSqrt]
  norm_num [stage1_sq, stage2_sq, stage1_c_a, stage1_c_b, dot_product_3x1, norm_sq, vec3_eq_iff]

theorem eval_stage1_idle :
    rod_distance_correction_stage1 Real.sqrt ![1 / 2, 0, 0] ![1 / 2, 0, 0] ![0, 0, 0]
        ![1 / 2, -1, 0] ![1, 0, 0] ![0, 2, 0] = (![1 / 2, 0, 0], ![1 / 2, 0, 0]) := by
  rw [stage1_eq_sq real_isSqrt]
  norm_num [stage1_sq, stage1_c_a, stage1_c_b, dot_product_3x1, norm_sq, vec3_eq_iff]

/-! ## The divisors of the solver -/

theorem cross_normalize_norm_sq (sqrt : K → K) (p q : Vec3 K) :
    norm_sq (cross_product (normalize sqrt p) (normalize sqrt q))
      = norm_sq (cross_product p q)
        / (absolute sqrt p * absolute sqrt p * (absolute sqrt q * absolute sqrt q)) := by
  simp only [norm_sq, cross_product, normalize, Matrix.cons_val_zero, Matrix.cons_val_one,
    Matrix.head_cons, Matrix.cons_val_two, Matrix.tail_cons]
  ring

theorem divisor_a_eq (sqrt : K → K) (p q : Vec3 K) :
    dot_product_3x1 (normalize sqrt p)
        (cross_product (normalize sqrt q) (cross_product (normalize sqrt p) (normalize sqrt q)))
      = norm_sq (cross_product (normalize sqrt p) (normalize sqrt q)) :=
  dot_pa_nb _ _

theorem divisor_b_eq (sqrt : K → K) (p q : Vec3 K) :
    dot_product_3x1 (normalize sqrt q)
        (cross_product (normalize sqrt p) (cross_product (normalize sqrt p) (normalize sqrt q)))
      = -norm_sq (cross_product (normalize sqrt p) (normalize sqrt q)) :=
  dot_pb_na _ _

theorem norm_sq_eq_zero_iff (v : Vec3 K) : norm_sq v = 0 ↔ v = 0 := by
  constructor
  · intro h
    by_contra hv
    exact (norm_sq_pos hv).ne' h
  · intro h
    rw [h]
    simp [norm_sq]

theorem cross_normalize_norm_sq_ne_zero {sqrt : K → K} (hs : IsSqrt sqrt) {p q : Vec3 K}
    (hp : p ≠ 0) (hq : q ≠ 0) (hnp : cross_product p q ≠ 0) :
    norm_sq (cross_product (normalize sqrt p) (normalize sqrt q)) ≠ 0 := by
  rw [cross_normalize_norm_sq]
  have h1 := (absolute_pos hs hp).ne'
  have h2 := (absolute_pos hs hq).ne'
  have h3 := (norm_sq_pos hnp).ne'
  positivity

theorem cross_normalize_norm_sq_eq_zero (sqrt : K → K) {p q : Vec3 K}
    (hpar : cross_product p q = 0) :
    norm_sq (cross_product (normalize sqrt p) (normalize sqrt q)) = 0 := by
  rw [cross_normalize_norm_sq, hpar]
  simp [norm_sq]

theorem cross_of_multiple (p q : Vec3 K) (c : K) (h : ∀ n, q n = c * p n) :
    cross_product p q = 0 := by
  funext n
  fin_cases n <;> simp [cross_product, h] <;> ring

theorem eval_scenario2 :
    get_shortest_distance_to_rod Real.sqrt ![1, 0, 0] ![1, 0, 1] ![0, 0, 0] ![0, 0, 1]
      = (![0, 0, 0], ![0, 0, 1]) :=
  shortest_eval real_isSqrt _ _ _ _ (ne_zero_of_component 0 (by simp))
    (ne_zero_of_component 0 (by simp))
    (![-1, 0, 0], ![-1, 0, 0])
    (![0, 0, 0], ![0, 0, 1])
    _
    (by norm_num [raw_sq, cross_product, dot_product_3x1, vec3_eq_iff])
    (by norm_num [stage1_sq, stage1_c_a, stage1_c_b, dot_product_3x1, norm_sq, vec3_eq_iff])
    (by norm_num [stage2_sq, norm_sq, vec3_eq_iff])

/-! ## The shape of Stage 2 -/

theorem stage2_of_idle (sqrt : K → K) (c_a c_b r_a r_b p_a p_b : Vec3 K)
    (h : ¬ absolute sqrt (fun n => c_b n - c_a n)
        > (99 / 100) * stage2_min_mag sqrt c_a c_b r_a r_b p_a p_b) :
    rod_distance_correction_stage2 sqrt c_a c_b r_a r_b p_a p_b = (c_a, c_b) := by
  unfold rod_distance_correction_stage2
  unfold stage2_min_mag stage2_d_mags at h
  dsimp only at h ⊢
  rw [if_neg h]

theorem stage2_of_triggered (sqrt : K → K) (c_a c_b r_a r_b p_a p_b : Vec3 K)
    (h : absolute sqrt (fun n => c_b n - c_a n)
        > (99 / 100) * stage2_min_mag sqrt c_a c_b r_a r_b p_a p_b) :
    rod_distance_correction_stage2 sqrt c_a c_b r_a r_b p_a p_b
      = tie_break_assign
          (tie_break_cascade (stage2_d_mags sqrt c_a c_b r_a r_b p_a p_b).1
            (stage2_d_mags sqrt c_a c_b r_a r_b p_a p_b).2.1
            (stage2_d_mags sqrt c_a c_b r_a r_b p_a p_b).2.2.1
            (stage2_d_mags sqrt c_a c_b r_a r_b p_a p_b).2.2.2)
          c_a c_b r_a r_b p_a p_b := by
  unfold rod_distance_correction_stage2 tie_break_cascade
  unfold stage2_min_mag at h
  unfold stage2_d_mags at h ⊢
  dsimp only at h ⊢
  rw [if_pos h]
  split_ifs <;> rfl

theorem correction_eq_stage2 (sqrt : K → K) (c_a c_b r_a r_b p_a p_b a1 b1 : Vec3 K)
    (h1 : rod_distance_correction_stage1 sqrt c_a c_b r_a r_b p_a p_b = (a1, b1)) :
    rod_distance_correction sqrt c_a c_b r_a r_b p_a p_b
      = rod_distance_correction_stage2 sqrt a1 b1 r_a r_b p_a p_b := by
  unfold rod_distance_correction
  dsimp only
  rw [h1]

theorem absolute_swap (sqrt : K → K) (u v : Vec3 K) :
    absolute sqrt (fun n => u n - v n) = absolute sqrt (fun n => v n - u n) := by
  unfold absolute
  congr 1
  ring

/-- The magnitude selected by the cascade is the least of the four. -/
theorem cascade_selects_min (d1 d2 d3 d4 : K) :
    (match tie_break_cascade d1 d2 d3 d4 with
      | TieBreak.d1 => d1
      | TieBreak.d2 => d2
      | TieBreak.d3 => d3
      | TieBreak.d4 => d4) = min d1 (min d2 (min d3 d4)) := by
  unfold tie_break_cascade
  split_ifs with h1 h2 h3
  · exact (min_eq_left h1).symm
  · simp only
    rw [min_eq_right (le_of_lt (not_le.1 h1)), min_eq_left h2]
  · simp only
    rw [min_eq_right (le_of_lt (not_le.1 h1)), min_eq_right (le_of_lt (not_le.1 h2)),
      min_eq_left h3]
  · simp only
    rw [min_eq_right (le_of_lt (not_le.1 h1)), min_eq_right (le_of_lt (not_le.1 h2)),
      min_eq_right (le_of_lt (not_le.1 h3))]

/-- The separation of the pair a triggered Stage 2 returns is the least of the
four magnitudes. -/
theorem triggered_separation (sqrt : K → K) (c_a c_b r_a r_b p_a p_b : Vec3 K)
    (h : absolute sqrt (fun n => c_b n - c_a n)
        > (99 / 100) * stage2_min_mag sqrt c_a c_b r_a r_b p_a p_b) :
    absolute sqrt (fun n => (rod_distance_correction_stage2 sqrt c_a c_b r_a r_b p_a p_b).2 n
        - (rod_distance_correction_stage2 sqrt c_a c_b r_a r_b p_a p_b).1 n)
      = stage2_min_mag sqrt c_a c_b r_a r_b p_a p_b := by
  rw [stage2_of_triggered sqrt c_a c_b r_a r_b p_a p_b h]
  unfold stage2_min_mag
  rw [← cascade_selects_min]
  cases hc : tie_break_cascade (stage2_d_mags sqrt c_a c_b r_a r_b p_a p_b).1
      (stage2_d_mags sqrt c_a c_b r_a r_b p_a p_b).2.1
      (stage2_d_mags sqrt c_a c_b r_a r_b p_a p_b).2.2.1
      (stage2_d_mags sqrt c_a c_b r_a r_b p_a p_b).2.2.2
  · rfl
  · rfl
  · exact absolute_swap sqrt _ _
  · exact absolute_swap sqrt _ _

theorem stage2_min_mag_nonneg {sqrt : K → K} (hs : IsSqrt sqrt)
    (c_a c_b r_a r_b p_a p_b : Vec3 K) :
    0 ≤ stage2_min_mag sqrt c_a c_b r_a r_b p_a p_b := by
  unfold stage2_min_mag stage2_d_mags
  dsimp only
  exact le_min (absolute_nonneg hs _) (le_min (absolute_nonneg hs _)
    (le_min (absolute_nonneg hs _) (absolute_nonneg hs _)))

/-! ## Stage 1 keeps a point of the line of element a on the segment -/

theorem stage1_c_a_on_segment (p_a r_a c_a : Vec3 K) (s : K) (ha : p_a ≠ 0)
    (hline : ∀ n, c_a n = r_a n + s * p_a n) :
    ∃ t : K, 0 ≤ t ∧ t ≤ 1 ∧ ∀ n,
      stage1_c_a (dot_product_3x1 p_a (fun n => c_a n - r_a n)) (norm_sq p_a) c_a r_a
        (fun n => r_a n + p_a n) n = r_a n + t * p_a n := by
  have hN := norm_sq_pos ha
  have hdot : dot_product_3x1 p_a (fun n => c_a n - r_a n) = s * norm_sq p_a := by
    simp only [dot_product_3x1, norm_sq, hline]
    ring
  rw [hdot]
  unfold stage1_c_a
  split_ifs with h1 h2
  · exact ⟨0, le_refl _, zero_le_one, fun n => by ring⟩
  · exact ⟨1, zero_le_one, le_refl _, fun n => by ring⟩
  · refine ⟨s, ?_, ?_, hline⟩
    · by_contra hneg
      exact h1 (mul_nonpos_of_nonpos_of_nonneg (le_of_lt (not_le.1 hneg)) hN.le)
    · by_contra hgt
      apply h2
      have : 1 * norm_sq p_a ≤ s * norm_sq p_a :=
        mul_le_mul_of_nonneg_right (le_of_lt (not_le.1 hgt)) hN.le
      linarith

/-! ## A pair inside the 99% window, and Stage 1 on two inputs that differ in `c_a` only -/

theorem window_stage1 :
    rod_distance_correction_stage1 Real.sqrt ![1, 0, 0] ![1, 10, 0] ![0, 0, 0] ![1, 10, -10] ![2, 0, 0] ![0, 0, 20] = (![1, 0, 0], ![1, 10, 0]) := by
  rw [stage1_eq_sq real_isSqrt]
  norm_num [stage1_sq, stage1_c_a, stage1_c_b, dot_product_3x1, norm_sq, vec3_eq_iff]

theorem window_triggered :
    absolute Real.sqrt (fun n => (![1, 10, 0] : Vec3 ℝ) n - (![1, 0, 0] : Vec3 ℝ) n)
      > (99 / 100) * stage2_min_mag Real.sqrt ![1, 0, 0] ![1, 10, 0] ![0, 0, 0] ![1, 10, -10] ![2, 0, 0] ![0, 0, 20] := by
  unfold stage2_min_mag stage2_d_mags
  dsimp only
  rw [trigger_iff real_isSqrt (99 / 100) (by norm_num)]
  norm_num [norm_sq]

theorem window_below_min :
    absolute Real.sqrt (fun n => (![1, 10, 0] : Vec3 ℝ) n - (![1, 0, 0] : Vec3 ℝ) n)
      < stage2_min_mag Real.sqrt ![1, 0, 0] ![1, 10, 0] ![0, 0, 0] ![1, 10, -10] ![2, 0, 0] ![0, 0, 20] := by
  unfold stage2_min_mag stage2_d_mags
  dsimp only
  simp only [lt_min_iff, absolute_lt_absolute real_isSqrt]
  norm_num [norm_sq]

theorem window_cascade :
    tie_break_cascade (stage2_d_mags Real.sqrt ![1, 0, 0] ![1, 10, 0] ![0, 0, 0] ![1, 10, -10] ![2, 0, 0] ![0, 0, 20]).1 (stage2_d_mags Real.sqrt ![1, 0, 0] ![1, 10, 0] ![0, 0, 0] ![1, 10, -10] ![2, 0, 0] ![0, 0, 20]).2.1
      (stage2_d_mags Real.sqrt ![1, 0, 0] ![1, 10, 0] ![0, 0, 0] ![1, 10, -10] ![2, 0, 0] ![0, 0, 20]).2.2.1 (stage2_d_mags Real.sqrt ![1, 0, 0] ![1, 10, 0] ![0, 0, 0] ![1, 10, -10] ![2, 0, 0] ![0, 0, 20]).2.2.2
      = TieBreak.d1 := by
  unfold tie_break_cascade stage2_d_mags
  dsimp only
  rw [if_pos]
  rw [le_min3_iff real_isSqrt]
  norm_num [norm_sq]

theorem window_correction :
    rod_distance_correction Real.sqrt ![1, 0, 0] ![1, 10, 0] ![0, 0, 0] ![1, 10, -10] ![2, 0, 0] ![0, 0, 20] = (![0, 0, 0], ![1, 10, 0]) := by
  rw [correction_eq_stage2 Real.sqrt _ _ _ _ _ _ _ _ window_stage1,
    stage2_of_triggered Real.sqrt _ _ _ _ _ _ window_triggered, window_cascade]
  rfl

theorem stage1_unclamped_b :
    rod_distance_correction_stage1 Real.sqrt ![-1, 0, 0] ![-1, 0, 0] ![0, 0, 0] ![-1, -2, 0]
        ![1, 0, 0] ![0, 1, 0] = (![0, 0, 0], ![-1, 0, 0]) := by
  rw [stage1_eq_sq real_isSqrt]
  norm_num [stage1_sq, stage1_c_a, stage1_c_b, dot_product_3x1, norm_sq, vec3_eq_iff]

theorem stage1_clamped_b :
    rod_distance_correction_stage1 Real.sqrt ![5, 0, 0] ![-1, 0, 0] ![0, 0, 0] ![-1, -2, 0]
        ![1, 0, 0] ![0, 1, 0] = (![1, 0, 0], ![-1, -1, 0]) := by
  rw [stage1_eq_sq real_isSqrt]
  norm_num [stage1_sq, stage1_c_a, stage1_c_b, dot_product_3x1, norm_sq, vec3_eq_iff]

theorem cascade_eq_rule (d1 d2 d3 d4 : K) :
    tie_break_rule_spec d1 d2 d3 d4 = some (tie_break_cascade d1 d2 d3 d4) := by
  unfold tie_break_rule_spec tie_break_cascade
  by_cases h1 : d1 ≤ min d2 (min d3 d4)
  · rw [if_pos h1, if_pos h1]
  · rw [if_neg h1, if_neg h1]
    have h1' := not_le.1 h1
    by_cases h2 : d2 ≤ min d3 d4
    · have h2' : d2 ≤ min d1 (min d3 d4) := by
        rw [min_eq_left h2] at h1'
        exact le_min h1'.le h2
      rw [if_pos h2, if_pos h2']
    · have h2' : ¬ d2 ≤ min d1 (min d3 d4) := fun h => h2 (le_trans h (min_le_right _ _))
      rw [if_neg h2, if_neg h2']
      have h2'' := not_le.1 h2
      rw [min_eq_right h2''.le] at h1'
      by_cases h3 : d3 ≤ d4
      · rw [min_eq_left h3] at h1' h2''
        have h3' : d3 ≤ min d1 (min d2 d4) := le_min h1'.le (le_min h2''.le h3)
        rw [if_pos h3, if_pos h3']
      · have h3' : ¬ d3 ≤ min d1 (min d2 d4) :=
          fun h => h3 (le_trans h (le_trans (min_le_right _ _) (min_le_right _ _)))
        have h3'' := not_le.1 h3
        rw [min_eq_right h3''.le] at h1' h2''
        have h4 : d4 ≤ min d1 (min d2 d3) := le_min h1'.le (le_min h2''.le h3''.le)
        rw [if_neg h3, if_neg h3', if_pos h4]

/-! ## Rounding to `float`, and the divisors of the solver in `float` arithmetic -/

theorem round_half_even_intCast [FloorRing K] (m : ℤ) : round_half_even (m : K) = m := by
  unfold round_half_even
  rw [Int.floor_intCast, sub_self, if_pos (by norm_num)]

theorem round_half_even_small [FloorRing K] (y : K) (h : |y| < 1 / 2) :
    round_half_even y = 0 := by
  rw [abs_lt] at h
  unfold round_half_even
  rcases le_or_lt 0 y with hy | hy
  · have hf : ⌊y⌋ = 0 := by
      rw [Int.floor_eq_iff]
      constructor
      · simpa using hy
      · simp only [Int.cast_zero, zero_add]
        linarith [h.2]
    rw [hf]
    simp only [Int.cast_zero, sub_zero]
    rw [if_pos h.2]
  · have hf : ⌊y⌋ = -1 := by
      rw [Int.floor_eq_iff]
      constructor
      · simp only [Int.cast_neg, Int.cast_one]
        linarith [h.1]
      · simp only [Int.cast_neg, Int.cast_one]
        linarith
    rw [hf]
    simp only [Int.cast_neg, Int.cast_one, sub_neg_eq_add]
    rw [if_neg (by linarith [h.1]), if_pos (by linarith [h.1])]
    norm_num

theorem round_binary32_zero [FloorRing K] : round_binary32 (0 : K) = 0 := by
  unfold round_binary32
  rw [if_pos rfl]

theorem round_binary32_tiny [FloorRing K] (x : K) (h : |x| < (2 : K) ^ (-150 : ℤ)) :
    round_binary32 x = 0 := by
  unfold round_binary32
  by_cases hx : x = 0
  · rw [if_pos hx]
  · rw [if_neg hx]
    have hpos : 0 < |x| := abs_pos.2 hx
    have hlog : Int.log 2 |x| < -150 := by
      rw [← Int.lt_zpow_iff_log_lt (by norm_num) hpos]
      simpa using h
    have he : max (Int.log 2 |x| - 23) (-149) = -149 := max_eq_right (by omega)
    rw [he]
    have h2 : (0 : K) < (2 : K) ^ (-149 : ℤ) := by positivity
    have hy : |x / (2 : K) ^ (-149 : ℤ)| < 1 / 2 := by
      rw [abs_div, abs_of_pos h2, div_lt_iff₀ h2]
      calc |x| < (2 : K) ^ (-150 : ℤ) := h
        _ = 1 / 2 * (2 : K) ^ (-149 : ℤ) := by
            rw [show (-149 : ℤ) = -150 + 1 by norm_num, zpow_add₀ (by norm_num : (2 : K) ≠ 0)]
            norm_num
    rw [round_half_even_small _ hy]
    simp

theorem round_binary32_two_zpow [FloorRing K] (k : ℤ) (hk : -126 ≤ k) :
    round_binary32 ((2 : K) ^ k) = (2 : K) ^ k := by
  have h2 : (2 : K) ≠ 0 := by norm_num
  have hx : (2 : K) ^ k ≠ 0 := zpow_ne_zero k h2
  have hxpos : (0 : K) < (2 : K) ^ k := by positivity
  unfold round_binary32
  rw [if_neg hx, abs_of_pos hxpos]
  have hlog : Int.log 2 ((2 : K) ^ k) = k := by
    have := Int.log_zpow (R := K) (b := 2) (by norm_num) k
    simpa using this
  rw [hlog, max_eq_left (by omega)]
  have hy : (2 : K) ^ k / (2 : K) ^ (k - 23) = (((2 : ℤ) ^ 23 : ℤ) : K) := by
    rw [← zpow_sub₀ h2]
    norm_num
  rw [hy, round_half_even_intCast]
  have hsplit : (2 : K) ^ k = (2 : K) ^ (23 : ℤ) * (2 : K) ^ (k - 23) := by
    rw [← zpow_add₀ h2]
    congr 1
    ring
  rw [hsplit]
  norm_num

theorem round_binary32_neg_two_zpow [FloorRing K] (k : ℤ) (hk : -126 ≤ k) :
    round_binary32 (-(2 : K) ^ k) = -(2 : K) ^ k := by
  have h2 : (2 : K) ≠ 0 := by norm_num
  have hxpos : (0 : K) < (2 : K) ^ k := by positivity
  have hx : -(2 : K) ^ k ≠ 0 := neg_ne_zero.2 hxpos.ne'
  unfold round_binary32
  rw [if_neg hx, abs_neg, abs_of_pos hxpos]
  have hlog : Int.log 2 ((2 : K) ^ k) = k := by
    have := Int.log_zpow (R := K) (b := 2) (by norm_num) k
    simpa using this
  rw [hlog, max_eq_left (by omega)]
  have hy : -(2 : K) ^ k / (2 : K) ^ (k - 23) = ((-(2 : ℤ) ^ 23 : ℤ) : K) := by
    rw [neg_div, ← zpow_sub₀ h2]
    norm_num
  rw [hy, round_half_even_intCast]
  have hsplit : (2 : K) ^ k = (2 : K) ^ (23 : ℤ) * (2 : K) ^ (k - 23) := by
    rw [← zpow_add₀ h2]
    congr 1
    ring
  rw [hsplit]
  norm_num

/-- Without rounding the `float` divisors are the exact ones. -/
theorem divisors_fl_id (sqrt : K → K) (p_a p_b : Vec3 K) :
    shortest_distance_divisors_fl id sqrt p_a p_b = shortest_distance_divisors sqrt p_a p_b :=
  rfl

/-- The raw points of lines 226-227 divide by the two divisors. -/
theorem raw_uses_divisors (sqrt : K → K) (p_a p_b r_a r_b : Vec3 K) :
    shortest_distance_raw sqrt p_a p_b r_a r_b
      = (fun n => r_a n
            + dot_product_3x1 (fun n => r_b n - r_a n)
                (cross_product (normalize sqrt p_b)
                  (cross_product (normalize sqrt p_a) (normalize sqrt p_b)))
              / (shortest_distance_divisors sqrt p_a p_b).1 * normalize sqrt p_a n,
         fun n => r_b n
            + dot_product_3x1 (fun n => r_a n - r_b n)
                (cross_product (normalize sqrt p_a)
                  (cross_product (normalize sqrt p_a) (normalize sqrt p_b)))
              / (shortest_distance_divisors sqrt p_a p_b).2 * normalize sqrt p_b n) :=
  rfl

/-- In `float` arithmetic the products `2^-80 * 2^-80` underflow to zero, and
both divisors are exactly zero for `p_a = (1,0,0)`, `p_b = (1, 2^-80, 0)`. -/
theorem binary32_divisors_underflow :
    shortest_distance_divisors_fl round_binary32 (fun x => round_binary32 (Real.sqrt x))
        ![1, 0, 0] ![1, (2 : ℝ) ^ (-80 : ℤ), 0] = (0, 0) := by
  have h0 : round_binary32 (0 : ℝ) = 0 := round_binary32_zero
  have h1 : round_binary32 (1 : ℝ) = 1 := by
    have := round_binary32_two_zpow (K := ℝ) 0 (by norm_num)
    simpa using this
  have ha : round_binary32 ((2 : ℝ) ^ (-80 : ℤ)) = (2 : ℝ) ^ (-80 : ℤ) :=
    round_binary32_two_zpow (-80) (by norm_num)
  have hna : round_binary32 (-(2 : ℝ) ^ (-80 : ℤ)) = -(2 : ℝ) ^ (-80 : ℤ) :=
    round_binary32_neg_two_zpow (-80) (by norm_num)
  have haa : round_binary32 ((2 : ℝ) ^ (-80 : ℤ) * (2 : ℝ) ^ (-80 : ℤ)) = 0 := by
    apply round_binary32_tiny
    rw [← zpow_add₀ (by norm_num : (2 : ℝ) ≠ 0), abs_of_pos (by positivity)]
    exact zpow_lt_zpow_right₀ (by norm_num) (by norm_num)
  have hnaa : round_binary32 (-((2 : ℝ) ^ (-80 : ℤ) * (2 : ℝ) ^ (-80 : ℤ))) = 0 := by
    apply round_binary32_tiny
    rw [abs_neg, ← zpow_add₀ (by norm_num : (2 : ℝ) ≠ 0), abs_of_pos (by positivity)]
    exact zpow_lt_zpow_right₀ (by norm_num) (by norm_num)
  generalize (2 : ℝ) ^ (-80 : ℤ) = a at ha hna haa hnaa
  simp [shortest_distance_divisors_fl, normalize_fl, absolute_fl, cross_product_fl,
    dot_product_3x1_fl, h0, h1, ha, hna, haa, hnaa]

/-! ## The claims -/

/-- C1 (segment containment), evaluated at a failing input.  For
`r_a = (0,0,0)`, `p_a = (1,0,0)`, `r_b = (-1,-2,0)`, `p_b = (0,1,0)` (both
non-zero, not parallel) `get_shortest_distance_to_rod` returns
`c_a = (0,0,0)` and `c_b = (-1,0,0) = r_b + 2 p_b`, so `c_b` is not on the
closed segment `[r_b, r_b + p_b]`: the second Stage 1 test for `c_b` compares
`dot_a`, not `dot_b`, with `p_b_sq`. -/
theorem C1_containment_fails_for_c_b :
    (![1, 0, 0] : Vec3 ℝ) ≠ 0 ∧ (![0, 1, 0] : Vec3 ℝ) ≠ 0
    ∧ cross_product (![1, 0, 0] : Vec3 ℝ) ![0, 1, 0] ≠ 0
    ∧ get_shortest_distance_to_rod Real.sqrt ![1, 0, 0] ![0, 1, 0] ![0, 0, 0] ![-1, -2, 0]
        = (![0, 0, 0], ![-1, 0, 0])
    ∧ ¬ ∃ t : ℝ, 0 ≤ t ∧ t ≤ 1 ∧ ∀ n,
        (get_shortest_distance_to_rod Real.sqrt ![1, 0, 0] ![0, 1, 0] ![0, 0, 0]
            ![-1, -2, 0]).2 n
          = (![-1, -2, 0] : Vec3 ℝ) n + t * (![0, 1, 0] : Vec3 ℝ) n := by
  refine ⟨ne_zero_of_component 0 (by simp), ne_zero_of_component 1 (by simp),
    ne_zero_of_component 2 (by simp [cross_product]), eval_outside_b, ?_⟩
  rintro ⟨t, _, h1, h⟩
  have h2 := h 1
  rw [eval_outside_b] at h2
  simp at h2
  linarith

/-- C3 (crossing segments), the spec's Scenario 1 and a failing input.  In
Scenario 1 both returned points are the crossing point `(1/2,0,0)`.  For
`r_a = (0,0,0)`, `p_a = (24,0,0)`, `r_b = (12,-5,0)`, `p_b = (0,10,0)` the
segments are perpendicular and cross at `X = (12,0,0)`, the midpoint of both,
yet the returned pair is `c_a = (12,0,0)`, `c_b = (12,-5,0) = r_b`: since
`dot_a = 288 ≥ p_b_sq = 100`, Stage 1 moves `c_b` off the crossing point. -/
theorem C3_crossing_point_lost :
    get_shortest_distance_to_rod Real.sqrt ![1, 0, 0] ![0, 2, 0] ![0, 0, 0] ![1 / 2, -1, 0]
        = (![1 / 2, 0, 0], ![1 / 2, 0, 0])
    ∧ dot_product_3x1 (![24, 0, 0] : Vec3 ℝ) ![0, 10, 0] = 0
    ∧ (∀ n, (![12, 0, 0] : Vec3 ℝ) n = (![0, 0, 0] : Vec3 ℝ) n + 1 / 2 * (![24, 0, 0] : Vec3 ℝ) n)
    ∧ (∀ n, (![12, 0, 0] : Vec3 ℝ) n
        = (![12, -5, 0] : Vec3 ℝ) n + 1 / 2 * (![0, 10, 0] : Vec3 ℝ) n)
    ∧ get_shortest_distance_to_rod Real.sqrt ![24, 0, 0] ![0, 10, 0] ![0, 0, 0] ![12, -5, 0]
        = (![12, 0, 0], ![12, -5, 0])
    ∧ (get_shortest_distance_to_rod Real.sqrt ![24, 0, 0] ![0, 10, 0] ![0, 0, 0]
        ![12, -5, 0]).2 ≠ ![12, 0, 0] := by
  refine ⟨eval_scenario1, by simp [dot_product_3x1], ?_, ?_, eval_long_crossing, ?_⟩
  · intro n
    fin_cases n <;> norm_num
  · intro n
    fin_cases n <;> norm_num
  · rw [eval_long_crossing]
    intro h
    have h1 := congrFun h 1
    norm_num at h1

/-- C4 (mirrored record): whenever the body of `assign_neighbours_to_elements`
computes `in_range = true`, `element_a_neighbours` ends as its initial value
followed by exactly the seven scalars `c_a[0..2], c_b[0..2], radius_b`, and
`element_b_neighbours` as its initial value followed by exactly
`c_b[0..2], c_a[0..2], radius_a`, with `(c_a, c_b)` the corrected closest
points. -/
theorem C4_mirrored_record (sqrt : K → K) (p_a p_b r_a r_b : Vec3 K) (radius_a radius_b : K)
    (s : NeighbourState K)
    (h : (assign_neighbours_to_elements sqrt p_a p_b r_a r_b radius_a radius_b s).in_range
      = true) :
    (assign_neighbours_to_elements sqrt p_a p_b r_a r_b radius_a radius_b s).element_a_neighbours
        = s.element_a_neighbours
          ++ [(get_shortest_distance_to_rod sqrt p_a p_b r_a r_b).1 0,
              (get_shortest_distance_to_rod sqrt p_a p_b r_a r_b).1 1,
              (get_shortest_distance_to_rod sqrt p_a p_b r_a r_b).1 2,
              (get_shortest_distance_to_rod sqrt p_a p_b r_a r_b).2 0,
              (get_shortest_distance_to_rod sqrt p_a p_b r_a r_b).2 1,
              (get_shortest_distance_to_rod sqrt p_a p_b r_a r_b).2 2, radius_b]
    ∧ (assign_neighbours_to_elements sqrt p_a p_b r_a r_b radius_a radius_b s).element_b_neighbours
        = s.element_b_neighbours
          ++ [(get_shortest_distance_to_rod sqrt p_a p_b r_a r_b).2 0,
              (get_shortest_distance_to_rod sqrt p_a p_b r_a r_b).2 1,
              (get_shortest_distance_to_rod sqrt p_a p_b r_a r_b).2 2,
              (get_shortest_distance_to_rod sqrt p_a p_b r_a r_b).1 0,
              (get_shortest_distance_to_rod sqrt p_a p_b r_a r_b).1 1,
              (get_shortest_distance_to_rod sqrt p_a p_b r_a r_b).1 2, radius_a] := by
  by_cases hlt : absolute sqrt (fun n => (get_shortest_distance_to_rod sqrt p_a p_b r_a r_b).2 n
      - (get_shortest_distance_to_rod sqrt p_a p_b r_a r_b).1 n) < radius_a + radius_b
  · rw [assign_of_lt sqrt p_a p_b r_a r_b radius_a radius_b s hlt]
    exact ⟨rfl, rfl⟩
  · rw [assign_of_not_lt sqrt p_a p_b r_a r_b radius_a radius_b s hlt] at h
    exact absurd h (by simp)

/-- Witness for C4: the spec's Scenario 3 with both radii 0.6 and empty lists.
The closest points are `(1/2,0,0)` and `(1/2,1,0)`, `in_range` is true and
each list holds one record. -/
theorem C4_mirrored_record_witness :
    (assign_neighbours_to_elements Real.sqrt ![1, 0, 0] ![0, 0, 1] ![0, 0, 0] ![1 / 2, 1, 0]
        (3 / 5) (3 / 5) ⟨[], [], false⟩).in_range = true
    ∧ (assign_neighbours_to_elements Real.sqrt ![1, 0, 0] ![0, 0, 1] ![0, 0, 0] ![1 / 2, 1, 0]
        (3 / 5) (3 / 5) ⟨[], [], false⟩).element_a_neighbours
        = [1 / 2, 0, 0, 1 / 2, 1, 0, 3 / 5]
    ∧ (assign_neighbours_to_elements Real.sqrt ![1, 0, 0] ![0, 0, 1] ![0, 0, 0] ![1 / 2, 1, 0]
        (3 / 5) (3 / 5) ⟨[], [], false⟩).element_b_neighbours
        = [1 / 2, 1, 0, 1 / 2, 0, 0, 3 / 5] := by
  have hin : (assign_neighbours_to_elements Real.sqrt ![1, 0, 0] ![0, 0, 1] ![0, 0, 0]
      ![1 / 2, 1, 0] (3 / 5) (3 / 5) ⟨[], [], false⟩).in_range = true := by
    rw [assign_of_lt Real.sqrt _ _ _ _ _ _ _ (by rw [separation_scenario3]; norm_num)]
  have h := C4_mirrored_record Real.sqrt ![1, 0, 0] ![0, 0, 1] ![0, 0, 0] ![1 / 2, 1, 0]
    (3 / 5) (3 / 5) ⟨[], [], false⟩ hin
  rw [eval_scenario3] at h
  refine ⟨hin, ?_, ?_⟩
  · rw [h.1]
    simp
  · rw [h.2]
    simp

/-- C5 (list symmetry): at the end of the body of
`assign_neighbours_to_elements` either both lists are their initial values
extended by exactly 7 scalars, or both are equal to their initial values;
one is unchanged exactly when the other is, and both are unchanged whenever
`in_range` is false. -/
theorem C5_list_symmetry (sqrt : K → K) (p_a p_b r_a r_b : Vec3 K) (radius_a radius_b : K)
    (s : NeighbourState K) :
    (((∃ rec_a : List K, rec_a.length = 7
          ∧ (assign_neighbours_to_elements sqrt p_a p_b r_a r_b radius_a radius_b
              s).element_a_neighbours = s.element_a_neighbours ++ rec_a)
        ∧ (∃ rec_b : List K, rec_b.length = 7
          ∧ (assign_neighbours_to_elements sqrt p_a p_b r_a r_b radius_a radius_b
              s).element_b_neighbours = s.element_b_neighbours ++ rec_b))
      ∨ ((assign_neighbours_to_elements sqrt p_a p_b r_a r_b radius_a radius_b
            s).element_a_neighbours = s.element_a_neighbours
        ∧ (assign_neighbours_to_elements sqrt p_a p_b r_a r_b radius_a radius_b
            s).element_b_neighbours = s.element_b_neighbours))
    ∧ ((assign_neighbours_to_elements sqrt p_a p_b r_a r_b radius_a radius_b
            s).element_a_neighbours = s.element_a_neighbours
        ↔ (assign_neighbours_to_elements sqrt p_a p_b r_a r_b radius_a radius_b
            s).element_b_neighbours = s.element_b_neighbours)
    ∧ ((assign_neighbours_to_elements sqrt p_a p_b r_a r_b radius_a radius_b s).in_range = false
        → (assign_neighbours_to_elements sqrt p_a p_b r_a r_b radius_a radius_b
            s).element_a_neighbours = s.element_a_neighbours
          ∧ (assign_neighbours_to_elements sqrt p_a p_b r_a r_b radius_a radius_b
            s).element_b_neighbours = s.element_b_neighbours) := by
  by_cases hlt : absolute sqrt (fun n => (get_shortest_distance_to_rod sqrt p_a p_b r_a r_b).2 n
      - (get_shortest_distance_to_rod sqrt p_a p_b r_a r_b).1 n) < radius_a + radius_b
  · rw [assign_of_lt sqrt p_a p_b r_a r_b radius_a radius_b s hlt]
    refine ⟨Or.inl ⟨⟨_, ?_, rfl⟩, ⟨_, ?_, rfl⟩⟩, ?_, ?_⟩
    · rfl
    · rfl
    · simp
    · intro h
      exact absurd h (by simp)
  · rw [assign_of_not_lt sqrt p_a p_b r_a r_b radius_a radius_b s hlt]
    exact ⟨Or.inr ⟨rfl, rfl⟩, ⟨fun _ => rfl, fun _ => rfl⟩, fun _ => ⟨rfl, rfl⟩⟩

/-- Witness for C5, the unchanged case: the spec's Scenario 4 (Scenario 3
geometry, both radii 0.2) gives `in_range = false` and leaves both lists as
they were. -/
theorem C5_list_symmetry_witness :
    (assign_neighbours_to_elements Real.sqrt ![1, 0, 0] ![0, 0, 1] ![0, 0, 0] ![1 / 2, 1, 0]
        (1 / 5) (1 / 5) ⟨[7], [8, 9], true⟩).in_range = false
    ∧ (assign_neighbours_to_elements Real.sqrt ![1, 0, 0] ![0, 0, 1] ![0, 0, 0] ![1 / 2, 1, 0]
        (1 / 5) (1 / 5) ⟨[7], [8, 9], true⟩).element_a_neighbours = [7]
    ∧ (assign_neighbours_to_elements Real.sqrt ![1, 0, 0] ![0, 0, 1] ![0, 0, 0] ![1 / 2, 1, 0]
        (1 / 5) (1 / 5) ⟨[7], [8, 9], true⟩).element_b_neighbours = [8, 9] := by
  have hout : (assign_neighbours_to_elements Real.sqrt ![1, 0, 0] ![0, 0, 1] ![0, 0, 0]
      ![1 / 2, 1, 0] (1 / 5) (1 / 5) ⟨[7], [8, 9], true⟩).in_range = false := by
    rw [assign_of_not_lt Real.sqrt _ _ _ _ _ _ _ (by rw [separation_scenario3]; norm_num)]
  exact ⟨hout, (C5_list_symmetry Real.sqrt ![1, 0, 0] ![0, 0, 1] ![0, 0, 0] ![1 / 2, 1, 0]
    (1 / 5) (1 / 5) ⟨[7], [8, 9], true⟩).2.2 hout⟩

/-- C6 (range test): the `in_range` value computed by
`assign_neighbours_to_elements` is true if and only if
`|c_b - c_a| < radius_a + radius_b` for the corrected closest points; at
tangency, `|c_b - c_a| = radius_a + radius_b`, it is false. -/
theorem C6_range_test (sqrt : K → K) (p_a p_b r_a r_b : Vec3 K) (radius_a radius_b : K)
    (s : NeighbourState K) :
    ((assign_neighbours_to_elements sqrt p_a p_b r_a r_b radius_a radius_b s).in_range = true
      ↔ absolute sqrt (fun n => (get_shortest_distance_to_rod sqrt p_a p_b r_a r_b).2 n
          - (get_shortest_distance_to_rod sqrt p_a p_b r_a r_b).1 n) < radius_a + radius_b)
    ∧ (absolute sqrt (fun n => (get_shortest_distance_to_rod sqrt p_a p_b r_a r_b).2 n
          - (get_shortest_distance_to_rod sqrt p_a p_b r_a r_b).1 n) = radius_a + radius_b
      → (assign_neighbours_to_elements sqrt p_a p_b r_a r_b radius_a radius_b s).in_range
          = false) := by
  by_cases hlt : absolute sqrt (fun n => (get_shortest_distance_to_rod sqrt p_a p_b r_a r_b).2 n
      - (get_shortest_distance_to_rod sqrt p_a p_b r_a r_b).1 n) < radius_a + radius_b
  · rw [assign_of_lt sqrt p_a p_b r_a r_b radius_a radius_b s hlt]
    exact ⟨⟨fun _ => hlt, fun _ => rfl⟩, fun h => absurd hlt (by rw [h]; exact lt_irrefl _)⟩
  · rw [assign_of_not_lt sqrt p_a p_b r_a r_b radius_a radius_b s hlt]
    exact ⟨⟨fun h => absurd h (by simp), fun h => absurd h hlt⟩, fun _ => rfl⟩

/-- Witness for C6 at tangency: Scenario 3 geometry (separation 1) with both
radii 1/2 gives `in_range = false`. -/
theorem C6_range_test_witness :
    absolute Real.sqrt (fun n =>
        (get_shortest_distance_to_rod Real.sqrt ![1, 0, 0] ![0, 0, 1] ![0, 0, 0]
          ![1 / 2, 1, 0]).2 n
        - (get_shortest_distance_to_rod Real.sqrt ![1, 0, 0] ![0, 0, 1] ![0, 0, 0]
          ![1 / 2, 1, 0]).1 n) = 1 / 2 + 1 / 2
    ∧ (assign_neighbours_to_elements Real.sqrt ![1, 0, 0] ![0, 0, 1] ![0, 0, 0] ![1 / 2, 1, 0]
        (1 / 2) (1 / 2) ⟨[], [], true⟩).in_range = false := by
  have htan : absolute Real.sqrt (fun n =>
        (get_shortest_distance_to_rod Real.sqrt ![1, 0, 0] ![0, 0, 1] ![0, 0, 0]
          ![1 / 2, 1, 0]).2 n
        - (get_shortest_distance_to_rod Real.sqrt ![1, 0, 0] ![0, 0, 1] ![0, 0, 0]
          ![1 / 2, 1, 0]).1 n) = 1 / 2 + 1 / 2 := by
    rw [separation_scenario3]
    norm_num
  exact ⟨htan, (C6_range_test Real.sqrt ![1, 0, 0] ![0, 0, 1] ![0, 0, 0] ![1 / 2, 1, 0]
    (1 / 2) (1 / 2) ⟨[], [], true⟩).2 htan⟩

/-- C7 (caller-visible result), evaluated at a failing input.  In the spec's
Scenario 3 with both radii 0.6 the body computes `in_range = true` and
appends one record to its copy of each list, but the three parameters are
passed by value: after the call the caller's lists are still empty and the
caller's flag still holds `false`. -/
theorem C7_caller_sees_no_result :
    (assign_neighbours_to_elements Real.sqrt ![1, 0, 0] ![0, 0, 1] ![0, 0, 0] ![1 / 2, 1, 0]
        (3 / 5) (3 / 5) ⟨[], [], false⟩).in_range = true
    ∧ (call_assign_neighbours_to_elements Real.sqrt ![1, 0, 0] ![0, 0, 1] ![0, 0, 0]
        ![1 / 2, 1, 0] (3 / 5) (3 / 5) ⟨[], [], false⟩).in_range = false
    ∧ (call_assign_neighbours_to_elements Real.sqrt ![1, 0, 0] ![0, 0, 1] ![0, 0, 0]
        ![1 / 2, 1, 0] (3 / 5) (3 / 5) ⟨[], [], false⟩).element_a_neighbours = []
    ∧ (call_assign_neighbours_to_elements Real.sqrt ![1, 0, 0] ![0, 0, 1] ![0, 0, 0]
        ![1 / 2, 1, 0] (3 / 5) (3 / 5) ⟨[], [], false⟩).element_b_neighbours = [] := by
  refine ⟨?_, rfl, rfl, rfl⟩
  rw [assign_of_lt Real.sqrt _ _ _ _ _ _ _ (by rw [separation_scenario3]; norm_num)]

/-- C8 (perturbed energy formula): for every axis `d`, amount `delta`, force
constant `k`, radii, points and non-zero `p_a`,
`get_steric_perturbation_energy` outputs `energies = [(1 - w2) * E, w2 * E]`
with `E = k * (|c_b' - c_a| - (radius_a + radius_b))`, `c_b'` being `c_b` with
`delta` added to component `d` only, and `w2 = |c_a - r_a| / |p_a|`. -/
theorem C8_perturbed_energy_formula (sqrt : K → K) (delta : K) (d : Fin 3) (k : K)
    (r_a p_a c_a c_b : Vec3 K) (radius_a radius_b : K) (_hp : p_a ≠ 0) :
    (get_steric_perturbation_energy sqrt delta d k r_a p_a c_a c_b radius_a radius_b).energies
      = ![(1 - absolute sqrt (fun n => c_a n - r_a n) / absolute sqrt p_a)
            * (k * (absolute sqrt (fun n => (if n = d then c_b n + delta else c_b n) - c_a n)
                - (radius_a + radius_b))),
          absolute sqrt (fun n => c_a n - r_a n) / absolute sqrt p_a
            * (k * (absolute sqrt (fun n => (if n = d then c_b n + delta else c_b n) - c_a n)
                - (radius_a + radius_b)))] := by
  have hupd : Function.update c_b d (c_b d + delta)
      = fun n => if n = d then c_b n + delta else c_b n := by
    funext n
    by_cases hn : n = d
    · subst hn
      simp
    · simp [hn]
  unfold get_steric_perturbation_energy
  dsimp only
  rw [hupd]

/-- Witness for C8: axis 1, `delta = 1/10`, `k = 2`, `r_a = (0,0,0)`,
`p_a = (1,0,0)`, `c_a = (1/2,0,0)`, `c_b = (1/2,1,0)`, radii 0.6. -/
theorem C8_perturbed_energy_formula_witness :
    (![1, 0, 0] : Vec3 ℝ) ≠ 0
    ∧ (get_steric_perturbation_energy Real.sqrt (1 / 10) 1 2 ![0, 0, 0] ![1, 0, 0]
        ![1 / 2, 0, 0] ![1 / 2, 1, 0] (3 / 5) (3 / 5)).energies
      = ![(1 - absolute Real.sqrt (fun n => (![1 / 2, 0, 0] : Vec3 ℝ) n - (![0, 0, 0] : Vec3 ℝ) n)
              / absolute Real.sqrt ![1, 0, 0])
            * (2 * (absolute Real.sqrt (fun n =>
                (if n = 1 then (![1 / 2, 1, 0] : Vec3 ℝ) n + 1 / 10 else (![1 / 2, 1, 0] : Vec3 ℝ) n)
                  - (![1 / 2, 0, 0] : Vec3 ℝ) n) - (3 / 5 + 3 / 5))),
          absolute Real.sqrt (fun n => (![1 / 2, 0, 0] : Vec3 ℝ) n - (![0, 0, 0] : Vec3 ℝ) n)
              / absolute Real.sqrt ![1, 0, 0]
            * (2 * (absolute Real.sqrt (fun n =>
                (if n = 1 then (![1 / 2, 1, 0] : Vec3 ℝ) n + 1 / 10 else (![1 / 2, 1, 0] : Vec3 ℝ) n)
                  - (![1 / 2, 0, 0] : Vec3 ℝ) n) - (3 / 5 + 3 / 5)))] :=
  ⟨ne_zero_of_component 0 (by simp),
    C8_perturbed_energy_formula Real.sqrt (1 / 10) 1 2 ![0, 0, 0] ![1, 0, 0] ![1 / 2, 0, 0]
      ![1 / 2, 1, 0] (3 / 5) (3 / 5) (ne_zero_of_component 0 (by simp))⟩

/-- C9 (interpolation weights): in `get_steric_perturbation_energy`, for
non-zero `p_a` and `c_a = r_a + t p_a` with `0 ≤ t ≤ 1`, the weights are
`w2 = t` and `w1 = 1 - t`; they add up to 1, both lie in `[0,1]`, they are
`(1,0)` at `c_a = r_a` and `(0,1)` at `c_a = r_a + p_a`, and
`energies[0] + energies[1]` equals the total energy. -/
theorem C9_interpolation_weights {sqrt : K → K} (hs : IsSqrt sqrt) (delta : K) (d : Fin 3)
    (k : K) (r_a p_a c_a c_b : Vec3 K) (radius_a radius_b t : K) (hp : p_a ≠ 0)
    (ht0 : 0 ≤ t) (ht1 : t ≤ 1) (hc : ∀ n, c_a n = r_a n + t * p_a n) :
    (get_steric_perturbation_energy sqrt delta d k r_a p_a c_a c_b radius_a
        radius_b).weight_node_2 = t
    ∧ (get_steric_perturbation_energy sqrt delta d k r_a p_a c_a c_b radius_a
        radius_b).weight_node_1 = 1 - t
    ∧ (get_steric_perturbation_energy sqrt delta d k r_a p_a c_a c_b radius_a
          radius_b).weight_node_1
        + (get_steric_perturbation_energy sqrt delta d k r_a p_a c_a c_b radius_a
          radius_b).weight_node_2 = 1
    ∧ 0 ≤ (get_steric_perturbation_energy sqrt delta d k r_a p_a c_a c_b radius_a
        radius_b).weight_node_1
    ∧ (get_steric_perturbation_energy sqrt delta d k r_a p_a c_a c_b radius_a
        radius_b).weight_node_1 ≤ 1
    ∧ 0 ≤ (get_steric_perturbation_energy sqrt delta d k r_a p_a c_a c_b radius_a
        radius_b).weight_node_2
    ∧ (get_steric_perturbation_energy sqrt delta d k r_a p_a c_a c_b radius_a
        radius_b).weight_node_2 ≤ 1
    ∧ (c_a = r_a →
        (get_steric_perturbation_energy sqrt delta d k r_a p_a c_a c_b radius_a
          radius_b).weight_node_1 = 1
        ∧ (get_steric_perturbation_energy sqrt delta d k r_a p_a c_a c_b radius_a
          radius_b).weight_node_2 = 0)
    ∧ ((∀ n, c_a n = r_a n + p_a n) →
        (get_steric_perturbation_energy sqrt delta d k r_a p_a c_a c_b radius_a
          radius_b).weight_node_1 = 0
        ∧ (get_steric_perturbation_energy sqrt delta d k r_a p_a c_a c_b radius_a
          radius_b).weight_node_2 = 1)
    ∧ (get_steric_perturbation_energy sqrt delta d k r_a p_a c_a c_b radius_a
          radius_b).energies 0
        + (get_steric_perturbation_energy sqrt delta d k r_a p_a c_a c_b radius_a
          radius_b).energies 1
      = (get_steric_perturbation_energy sqrt delta d k r_a p_a c_a c_b radius_a
          radius_b).energy := by
  have hpos := (absolute_pos hs hp).ne'
  have hw2 : (get_steric_perturbation_energy sqrt delta d k r_a p_a c_a c_b radius_a
      radius_b).weight_node_2 = t := by
    show absolute sqrt (fun n => c_a n - r_a n) / absolute sqrt p_a = t
    rw [absolute_scaled hs r_a p_a c_a t ht0 hc, mul_div_assoc, div_self hpos, mul_one]
  have hw1 : (get_steric_perturbation_energy sqrt delta d k r_a p_a c_a c_b radius_a
      radius_b).weight_node_1 = 1 - t := by
    show 1 - (get_steric_perturbation_energy sqrt delta d k r_a p_a c_a c_b radius_a
      radius_b).weight_node_2 = 1 - t
    rw [hw2]
  obtain ⟨m, hm⟩ := exists_component_ne_zero hp
  refine ⟨hw2, hw1, ?_, ?_, ?_, ?_, ?_, ?_, ?_, ?_⟩
  · rw [hw1, hw2]; ring
  · rw [hw1]; linarith
  · rw [hw1]; linarith
  · rw [hw2]; exact ht0
  · rw [hw2]; exact ht1
  · intro h
    have h1 := hc m
    rw [h] at h1
    have h2 : t * p_a m = 0 := by linarith
    have h3 : t = 0 := (mul_eq_zero.1 h2).resolve_right hm
    rw [hw1, hw2, h3]
    exact ⟨by ring, rfl⟩
  · intro h
    have h1 := hc m
    rw [h m] at h1
    have h2 : (t - 1) * p_a m = 0 := by linarith
    have h3 : t = 1 := by
      have := (mul_eq_zero.1 h2).resolve_right hm
      linarith
    rw [hw1, hw2, h3]
    exact ⟨by ring, rfl⟩
  · show (get_steric_perturbation_energy sqrt delta d k r_a p_a c_a c_b radius_a
          radius_b).weight_node_1 * (get_steric_perturbation_energy sqrt delta d k r_a p_a c_a c_b radius_a
          radius_b).energy + (get_steric_perturbation_energy sqrt delta d k r_a p_a c_a c_b radius_a
          radius_b).weight_node_2 * (get_steric_perturbation_energy sqrt delta d k r_a p_a c_a c_b radius_a
          radius_b).energy = _
    rw [hw1, hw2]
    ring

/-- Witness for C9: `r_a = (0,0,0)`, `p_a = (2,0,0)`, `c_a = (1/2,0,0)`, that is
`t = 1/4`; the weights are `3/4` and `1/4`. -/
theorem C9_interpolation_weights_witness :
    (get_steric_perturbation_energy Real.sqrt (1 / 10) 1 2 ![0, 0, 0] ![2, 0, 0] ![1 / 2, 0, 0]
        ![1 / 2, 1, 0] (3 / 5) (3 / 5)).weight_node_2 = 1 / 4
    ∧ (get_steric_perturbation_energy Real.sqrt (1 / 10) 1 2 ![0, 0, 0] ![2, 0, 0]
        ![1 / 2, 0, 0] ![1 / 2, 1, 0] (3 / 5) (3 / 5)).weight_node_1 = 1 - 1 / 4 :=
  have h := C9_interpolation_weights real_isSqrt (1 / 10) 1 2 ![0, 0, 0] ![2, 0, 0]
    ![1 / 2, 0, 0] ![1 / 2, 1, 0] (3 / 5) (3 / 5) (1 / 4) (ne_zero_of_component 0 (by simp))
    (by norm_num) (by norm_num) (by intro n; fin_cases n <;> norm_num)
  ⟨h.1, h.2.1⟩

/-- C10 (idempotence of the corrector) fails.  With `r_a = (0,0,0)`,
`p_a = (1,0,0)`, `r_b = (0,1,0)`, `p_b = (0,2,0)` and the input pair
`c_a = (1/2,0,0)`, `c_b = (0,2,0)`, the first application returns
`((1/2,0,0), (0,1,0))` (Stage 2 moves `c_b` to `r_b`), and applying the
corrector to that pair returns `((0,0,0), (0,1,0))` (Stage 2 now moves `c_a`
to `r_a`). -/
theorem C10_not_idempotent :
    (![1, 0, 0] : Vec3 ℝ) ≠ 0 ∧ (![0, 2, 0] : Vec3 ℝ) ≠ 0
    ∧ rod_distance_correction Real.sqrt
        (rod_distance_correction Real.sqrt ![1 / 2, 0, 0] ![0, 2, 0] ![0, 0, 0] ![0, 1, 0]
          ![1, 0, 0] ![0, 2, 0]).1
        (rod_distance_correction Real.sqrt ![1 / 2, 0, 0] ![0, 2, 0] ![0, 0, 0] ![0, 1, 0]
          ![1, 0, 0] ![0, 2, 0]).2 ![0, 0, 0] ![0, 1, 0] ![1, 0, 0] ![0, 2, 0]
      ≠ rod_distance_correction Real.sqrt ![1 / 2, 0, 0] ![0, 2, 0] ![0, 0, 0] ![0, 1, 0]
          ![1, 0, 0] ![0, 2, 0] := by
  refine ⟨ne_zero_of_component 0 (by simp), ne_zero_of_component 1 (by simp), ?_⟩
  rw [eval_correction_first]
  show rod_distance_correction Real.sqrt ![1 / 2, 0, 0] ![0, 1, 0] ![0, 0, 0] ![0, 1, 0]
      ![1, 0, 0] ![0, 2, 0] ≠ _
  rw [eval_correction_second]
  intro h
  have h1 := congrFun (congrArg Prod.fst h) 0
  norm_num at h1

/-- C10 as amended: for non-zero `p_a`, `p_b`, whenever Stage 2 of the first
application leaves the Stage 1 points as they are (in particular whenever the
99% threshold is not exceeded), applying `rod_distance_correction` to its own
output returns that output unchanged. -/
theorem C10_idempotent_when_stage2_idle {sqrt : K → K} (hs : IsSqrt sqrt)
    (c_a c_b r_a r_b p_a p_b : Vec3 K) (ha : p_a ≠ 0) (hb : p_b ≠ 0)
    (h : rod_distance_correction sqrt c_a c_b r_a r_b p_a p_b
      = rod_distance_correction_stage1 sqrt c_a c_b r_a r_b p_a p_b) :
    rod_distance_correction sqrt (rod_distance_correction sqrt c_a c_b r_a r_b p_a p_b).1
        (rod_distance_correction sqrt c_a c_b r_a r_b p_a p_b).2 r_a r_b p_a p_b
      = rod_distance_correction sqrt c_a c_b r_a r_b p_a p_b := by
  rw [h]
  show rod_distance_correction_stage2 sqrt
      (rod_distance_correction_stage1 sqrt
        (rod_distance_correction_stage1 sqrt c_a c_b r_a r_b p_a p_b).1
        (rod_distance_correction_stage1 sqrt c_a c_b r_a r_b p_a p_b).2 r_a r_b p_a p_b).1
      (rod_distance_correction_stage1 sqrt
        (rod_distance_correction_stage1 sqrt c_a c_b r_a r_b p_a p_b).1
        (rod_distance_correction_stage1 sqrt c_a c_b r_a r_b p_a p_b).2 r_a r_b p_a p_b).2
      r_a r_b p_a p_b = _
  rw [stage1_idem hs _ _ _ _ _ _ ha hb]
  exact h

/-- Witness for C10 as amended: Scenario 1 geometry with both points at the
crossing point `(1/2,0,0)`; neither stage moves a point. -/
theorem C10_idempotent_when_stage2_idle_witness :
    rod_distance_correction Real.sqrt
        (rod_distance_correction Real.sqrt ![1 / 2, 0, 0] ![1 / 2, 0, 0] ![0, 0, 0]
          ![1 / 2, -1, 0] ![1, 0, 0] ![0, 2, 0]).1
        (rod_distance_correction Real.sqrt ![1 / 2, 0, 0] ![1 / 2, 0, 0] ![0, 0, 0]
          ![1 / 2, -1, 0] ![1, 0, 0] ![0, 2, 0]).2 ![0, 0, 0] ![1 / 2, -1, 0] ![1, 0, 0]
        ![0, 2, 0]
      = rod_distance_correction Real.sqrt ![1 / 2, 0, 0] ![1 / 2, 0, 0] ![0, 0, 0]
          ![1 / 2, -1, 0] ![1, 0, 0] ![0, 2, 0] :=
  C10_idempotent_when_stage2_idle real_isSqrt ![1 / 2, 0, 0] ![1 / 2, 0, 0] ![0, 0, 0]
    ![1 / 2, -1, 0] ![1, 0, 0] ![0, 2, 0] (ne_zero_of_component 0 (by simp))
    (ne_zero_of_component 1 (by simp)) (by rw [eval_correction_idle, eval_stage1_idle])

/-- C11 (Scenario 2): for `r_a = (0,0,0)`, `p_a = (1,0,0)`, `r_b = (0,0,1)`,
`p_b = (1,0,1)` both divisors of the solver are non-zero, the returned points
are `c_a = (0,0,0)` and `c_b = (0,0,1)`, and their separation is exactly 1. -/
theorem C11_scenario2 :
    dot_product_3x1 (normalize Real.sqrt ![1, 0, 0])
        (cross_product (normalize Real.sqrt ![1, 0, 1])
          (cross_product (normalize Real.sqrt ![1, 0, 0]) (normalize Real.sqrt ![1, 0, 1]))) ≠ 0
    ∧ dot_product_3x1 (normalize Real.sqrt ![1, 0, 1])
        (cross_product (normalize Real.sqrt ![1, 0, 0])
          (cross_product (normalize Real.sqrt ![1, 0, 0]) (normalize Real.sqrt ![1, 0, 1]))) ≠ 0
    ∧ get_shortest_distance_to_rod Real.sqrt ![1, 0, 0] ![1, 0, 1] ![0, 0, 0] ![0, 0, 1]
        = (![0, 0, 0], ![0, 0, 1])
    ∧ absolute Real.sqrt (fun n =>
          (get_shortest_distance_to_rod Real.sqrt ![1, 0, 0] ![1, 0, 1] ![0, 0, 0]
            ![0, 0, 1]).2 n
          - (get_shortest_distance_to_rod Real.sqrt ![1, 0, 0] ![1, 0, 1] ![0, 0, 0]
            ![0, 0, 1]).1 n) = 1 := by
  have h := cross_normalize_norm_sq_ne_zero real_isSqrt
    (ne_zero_of_component 0 (by simp) : (![1, 0, 0] : Vec3 ℝ) ≠ 0)
    (ne_zero_of_component 0 (by simp) : (![1, 0, 1] : Vec3 ℝ) ≠ 0)
    (ne_zero_of_component 1 (by simp [cross_product]))
  refine ⟨?_, ?_, eval_scenario2, ?_⟩
  · rw [divisor_a_eq]
    exact h
  · rw [divisor_b_eq]
    exact neg_ne_zero.2 h
  · rw [eval_scenario2]
    exact absolute_eq real_isSqrt _ 1 (by norm_num) (by norm_num [norm_sq])

/-- C12 (exactness of the infinite-line formula): for non-zero, non-parallel
`p_a`, `p_b` the raw points computed before the correction call are
`c_a = r_a + s l_a` and `c_b = r_b + t l_b`, their difference is orthogonal to
`p_a` and to `p_b`, and no two points of the two infinite lines are closer to
each other. -/
theorem C12_raw_points_exact {sqrt : K → K} (hs : IsSqrt sqrt) (p_a p_b r_a r_b : Vec3 K)
    (ha : p_a ≠ 0) (hb : p_b ≠ 0) (hnp : cross_product p_a p_b ≠ 0) :
    (∃ s : K, ∀ n, (shortest_distance_raw sqrt p_a p_b r_a r_b).1 n
        = r_a n + s * normalize sqrt p_a n)
    ∧ (∃ t : K, ∀ n, (shortest_distance_raw sqrt p_a p_b r_a r_b).2 n
        = r_b n + t * normalize sqrt p_b n)
    ∧ dot_product_3x1 p_a (fun n => (shortest_distance_raw sqrt p_a p_b r_a r_b).2 n
        - (shortest_distance_raw sqrt p_a p_b r_a r_b).1 n) = 0
    ∧ dot_product_3x1 p_b (fun n => (shortest_distance_raw sqrt p_a p_b r_a r_b).2 n
        - (shortest_distance_raw sqrt p_a p_b r_a r_b).1 n) = 0
    ∧ ∀ s t : K,
        absolute sqrt (fun n => (shortest_distance_raw sqrt p_a p_b r_a r_b).2 n
            - (shortest_distance_raw sqrt p_a p_b r_a r_b).1 n)
          ≤ absolute sqrt (fun n => (r_b n + t * normalize sqrt p_b n)
            - (r_a n + s * normalize sqrt p_a n)) := by
  have ho := raw_sq_orthogonal p_a p_b r_a r_b hnp
  refine ⟨⟨_, fun n => rfl⟩, ⟨_, fun n => rfl⟩, ?_, ?_, ?_⟩
  · rw [raw_eq_sq hs _ _ _ _ ha hb]
    exact ho.1
  · rw [raw_eq_sq hs _ _ _ _ ha hb]
    exact ho.2
  · intro s t
    rw [raw_eq_sq hs _ _ _ _ ha hb, absolute_le_absolute hs]
    have h := norm_sq_ge_of_orthogonal p_a p_b r_a r_b _ _ (s / absolute sqrt p_a)
      (t / absolute sqrt p_b) ho.1 ho.2
    have e : (fun n => (r_b n + t * normalize sqrt p_b n) - (r_a n + s * normalize sqrt p_a n))
        = fun n => (r_b n + t / absolute sqrt p_b * p_b n)
          - (r_a n + s / absolute sqrt p_a * p_a n) := by
      funext n
      simp only [normalize]
      ring
    rw [e]
    exact h

/-- Witness for C12: Scenario 1 geometry; the difference of the raw points is
orthogonal to both segment vectors. -/
theorem C12_raw_points_exact_witness :
    dot_product_3x1 (![1, 0, 0] : Vec3 ℝ) (fun n =>
        (shortest_distance_raw Real.sqrt ![1, 0, 0] ![0, 2, 0] ![0, 0, 0] ![1 / 2, -1, 0]).2 n
        - (shortest_distance_raw Real.sqrt ![1, 0, 0] ![0, 2, 0] ![0, 0, 0] ![1 / 2, -1, 0]).1 n)
      = 0
    ∧ dot_product_3x1 (![0, 2, 0] : Vec3 ℝ) (fun n =>
        (shortest_distance_raw Real.sqrt ![1, 0, 0] ![0, 2, 0] ![0, 0, 0] ![1 / 2, -1, 0]).2 n
        - (shortest_distance_raw Real.sqrt ![1, 0, 0] ![0, 2, 0] ![0, 0, 0] ![1 / 2, -1, 0]).1 n)
      = 0 :=
  have h := C12_raw_points_exact real_isSqrt ![1, 0, 0] ![0, 2, 0] ![0, 0, 0] ![1 / 2, -1, 0]
    (ne_zero_of_component 0 (by simp)) (ne_zero_of_component 1 (by simp))
    (ne_zero_of_component 2 (by simp [cross_product]))
  ⟨h.2.2.1, h.2.2.2.1⟩

/-- C13 (division safety of the solver) fails on `float` operands.  The
vectors `p_a = (1,0,0)` and `p_b = (1, 2^-80, 0)` are non-zero, not parallel
and exactly representable, yet both divisors of lines 226-227 are exactly
zero: `|p_b|` rounds to 1, `l_a x l_b = (0,0,2^-80)`, and the products
`2^-80 * 2^-80` in `n_b` and in `l_b . n_a` underflow to zero.  The solver has
no guard, so it divides by zero. -/
theorem C13_divisors_vanish_in_binary32 :
    (![1, 0, 0] : Vec3 ℝ) ≠ 0 ∧ (![1, (2 : ℝ) ^ (-80 : ℤ), 0] : Vec3 ℝ) ≠ 0
    ∧ cross_product (![1, 0, 0] : Vec3 ℝ) ![1, (2 : ℝ) ^ (-80 : ℤ), 0] ≠ 0
    ∧ (∀ n, round_binary32 ((![1, 0, 0] : Vec3 ℝ) n) = (![1, 0, 0] : Vec3 ℝ) n)
    ∧ (∀ n, round_binary32 ((![1, (2 : ℝ) ^ (-80 : ℤ), 0] : Vec3 ℝ) n)
        = (![1, (2 : ℝ) ^ (-80 : ℤ), 0] : Vec3 ℝ) n)
    ∧ (shortest_distance_divisors_fl round_binary32 (fun x => round_binary32 (Real.sqrt x))
        ![1, 0, 0] ![1, (2 : ℝ) ^ (-80 : ℤ), 0]).1 = 0
    ∧ (shortest_distance_divisors_fl round_binary32 (fun x => round_binary32 (Real.sqrt x))
        ![1, 0, 0] ![1, (2 : ℝ) ^ (-80 : ℤ), 0]).2 = 0 := by
  have h1 : round_binary32 (1 : ℝ) = 1 := by
    have h := round_binary32_two_zpow (K := ℝ) 0 (by norm_num)
    simpa using h
  have ha : round_binary32 ((2 : ℝ) ^ (-80 : ℤ)) = (2 : ℝ) ^ (-80 : ℤ) :=
    round_binary32_two_zpow (-80) (by norm_num)
  refine ⟨ne_zero_of_component 0 (by simp), ne_zero_of_component 0 (by simp),
    ne_zero_of_component 2 (by norm_num [cross_product]), ?_, ?_, ?_, ?_⟩
  · intro n
    fin_cases n
    · exact h1
    · exact round_binary32_zero
    · exact round_binary32_zero
  · intro n
    fin_cases n
    · exact h1
    · exact ha
    · exact round_binary32_zero
  · rw [binary32_divisors_underflow]
  · rw [binary32_divisors_underflow]

/-- C13 as amended: in exact arithmetic, for non-zero `p_a`, `p_b` with
`l_a`, `l_b` their normalisations, the raw points of the solver divide by
`l_a . n_b = |l_a x l_b|^2` and `l_b . n_a = -|l_a x l_b|^2`; both divisors
are non-zero when `p_a x p_b ≠ 0` and both are zero when `p_a x p_b = 0`, in
particular when `p_b` is a (positive or negative) multiple of `p_a`. -/
theorem C13_divisors_exact {sqrt : K → K} (hs : IsSqrt sqrt) (p_a p_b : Vec3 K)
    (ha : p_a ≠ 0) (hb : p_b ≠ 0) :
    (∀ r_a r_b : Vec3 K, shortest_distance_raw sqrt p_a p_b r_a r_b
      = (fun n => r_a n
            + dot_product_3x1 (fun n => r_b n - r_a n)
                (cross_product (normalize sqrt p_b)
                  (cross_product (normalize sqrt p_a) (normalize sqrt p_b)))
              / (shortest_distance_divisors sqrt p_a p_b).1 * normalize sqrt p_a n,
         fun n => r_b n
            + dot_product_3x1 (fun n => r_a n - r_b n)
                (cross_product (normalize sqrt p_a)
                  (cross_product (normalize sqrt p_a) (normalize sqrt p_b)))
              / (shortest_distance_divisors sqrt p_a p_b).2 * normalize sqrt p_b n))
    ∧ shortest_distance_divisors_fl id sqrt p_a p_b = shortest_distance_divisors sqrt p_a p_b
    ∧ (shortest_distance_divisors sqrt p_a p_b).1
      = absolute sqrt (cross_product (normalize sqrt p_a) (normalize sqrt p_b))
        * absolute sqrt (cross_product (normalize sqrt p_a) (normalize sqrt p_b))
    ∧ (shortest_distance_divisors sqrt p_a p_b).2
      = -(absolute sqrt (cross_product (normalize sqrt p_a) (normalize sqrt p_b))
        * absolute sqrt (cross_product (normalize sqrt p_a) (normalize sqrt p_b)))
    ∧ (cross_product p_a p_b ≠ 0 →
        (shortest_distance_divisors sqrt p_a p_b).1 ≠ 0
        ∧ (shortest_distance_divisors sqrt p_a p_b).2 ≠ 0)
    ∧ (cross_product p_a p_b = 0 →
        (shortest_distance_divisors sqrt p_a p_b).1 = 0
        ∧ (shortest_distance_divisors sqrt p_a p_b).2 = 0)
    ∧ ((∃ c : K, ∀ n, p_b n = c * p_a n) →
        (shortest_distance_divisors sqrt p_a p_b).1 = 0
        ∧ (shortest_distance_divisors sqrt p_a p_b).2 = 0) := by
  have e1 : (shortest_distance_divisors sqrt p_a p_b).1
      = norm_sq (cross_product (normalize sqrt p_a) (normalize sqrt p_b)) :=
    divisor_a_eq sqrt p_a p_b
  have e2 : (shortest_distance_divisors sqrt p_a p_b).2
      = -norm_sq (cross_product (normalize sqrt p_a) (normalize sqrt p_b)) :=
    divisor_b_eq sqrt p_a p_b
  refine ⟨fun r_a r_b => raw_uses_divisors sqrt p_a p_b r_a r_b, divisors_fl_id sqrt p_a p_b,
    ?_⟩
  rw [e1, e2, absolute_mul_self hs]
  refine ⟨rfl, rfl, ?_, ?_, ?_⟩
  · intro hnp
    have h := cross_normalize_norm_sq_ne_zero hs ha hb hnp
    exact ⟨h, neg_ne_zero.2 h⟩
  · intro hpar
    have h := cross_normalize_norm_sq_eq_zero sqrt hpar
    exact ⟨h, by rw [h, neg_zero]⟩
  · rintro ⟨c, hc⟩
    have h := cross_normalize_norm_sq_eq_zero sqrt (cross_of_multiple p_a p_b c hc)
    exact ⟨h, by rw [h, neg_zero]⟩

/-- Witness for C13 as amended: `p_a = (1,0,0)`, `p_b = (0,2,0)`; in exact
arithmetic both divisors are non-zero. -/
theorem C13_divisors_exact_witness :
    (shortest_distance_divisors Real.sqrt ![1, 0, 0] ![0, 2, 0]).1 ≠ 0
    ∧ (shortest_distance_divisors Real.sqrt ![1, 0, 0] ![0, 2, 0]).2 ≠ 0 :=
  (C13_divisors_exact real_isSqrt ![1, 0, 0] ![0, 2, 0] (ne_zero_of_component 0 (by simp))
    (ne_zero_of_component 1 (by simp))).2.2.2.2.1
    (ne_zero_of_component 2 (by simp [cross_product]))

/-- C14 (Stage 1 clamps each point against its own element only), evaluated
at a failing input.  With `r_b = (-1,-2,0)`, `p_b = (0,1,0)`,
`c_b = (-1,0,0)` we have `p_b . (c_b - r_b) = 2 ≥ |p_b|^2 = 1`, so the claim
asks for the Stage 1 value `r_b + p_b = (-1,-1,0)`.  With `r_a = (0,0,0)`,
`p_a = (1,0,0)`, `c_a = (-1,0,0)` Stage 1 leaves `c_b = (-1,0,0)`; with
`c_a = (5,0,0)` and everything else the same it gives `(-1,-1,0)`: the value
depends on `c_a`, because the second test reads `dot_a >= p_b_sq`. -/
theorem C14_stage1_c_b_depends_on_c_a :
    dot_product_3x1 (![0, 1, 0] : Vec3 ℝ)
        (fun n => (![-1, 0, 0] : Vec3 ℝ) n - (![-1, -2, 0] : Vec3 ℝ) n)
      ≥ absolute Real.sqrt ![0, 1, 0] * absolute Real.sqrt ![0, 1, 0]
    ∧ (rod_distance_correction_stage1 Real.sqrt ![-1, 0, 0] ![-1, 0, 0] ![0, 0, 0]
        ![-1, -2, 0] ![1, 0, 0] ![0, 1, 0]).2 = ![-1, 0, 0]
    ∧ (rod_distance_correction_stage1 Real.sqrt ![-1, 0, 0] ![-1, 0, 0] ![0, 0, 0]
        ![-1, -2, 0] ![1, 0, 0] ![0, 1, 0]).2
      ≠ (fun n => (![-1, -2, 0] : Vec3 ℝ) n + (![0, 1, 0] : Vec3 ℝ) n)
    ∧ (rod_distance_correction_stage1 Real.sqrt ![5, 0, 0] ![-1, 0, 0] ![0, 0, 0]
        ![-1, -2, 0] ![1, 0, 0] ![0, 1, 0]).2 = ![-1, -1, 0] := by
  refine ⟨?_, ?_, ?_, ?_⟩
  · rw [absolute_mul_self real_isSqrt]
    norm_num [dot_product_3x1, norm_sq]
  · rw [stage1_unclamped_b]
  · rw [stage1_unclamped_b]
    intro h
    have h1 := congrFun h 1
    norm_num at h1
  · rw [stage1_clamped_b]

/-- C15 (Stage 2 result is the smallest candidate) fails.  With
`r_a = (0,0,0)`, `p_a = (2,0,0)`, `r_b = (1,10,-10)`, `p_b = (0,0,20)` and the
input pair `c_a = (1,0,0)`, `c_b = (1,10,0)`, Stage 1 changes nothing,
`|c_ab| = 10` is strictly below `min(|d1|,..,|d4|) = √101`, yet it exceeds
99% of it: Stage 2 moves `c_a` to `r_a` and the output separation is `√101`,
not the minimum 10 of the five, and the points are not left as Stage 1
produced them. -/
theorem C15_window_counterexample :
    rod_distance_correction_stage1 Real.sqrt ![1, 0, 0] ![1, 10, 0] ![0, 0, 0] ![1, 10, -10] ![2, 0, 0] ![0, 0, 20] = (![1, 0, 0], ![1, 10, 0])
    ∧ absolute Real.sqrt (fun n => (![1, 10, 0] : Vec3 ℝ) n - (![1, 0, 0] : Vec3 ℝ) n)
      < stage2_min_mag Real.sqrt ![1, 0, 0] ![1, 10, 0] ![0, 0, 0] ![1, 10, -10] ![2, 0, 0] ![0, 0, 20]
    ∧ rod_distance_correction Real.sqrt ![1, 0, 0] ![1, 10, 0] ![0, 0, 0] ![1, 10, -10] ![2, 0, 0] ![0, 0, 20] = (![0, 0, 0], ![1, 10, 0])
    ∧ rod_distance_correction Real.sqrt ![1, 0, 0] ![1, 10, 0] ![0, 0, 0] ![1, 10, -10] ![2, 0, 0] ![0, 0, 20] ≠ rod_distance_correction_stage1 Real.sqrt ![1, 0, 0] ![1, 10, 0] ![0, 0, 0] ![1, 10, -10] ![2, 0, 0] ![0, 0, 20]
    ∧ absolute Real.sqrt (fun n => (rod_distance_correction Real.sqrt ![1, 0, 0] ![1, 10, 0] ![0, 0, 0] ![1, 10, -10] ![2, 0, 0] ![0, 0, 20]).2 n
          - (rod_distance_correction Real.sqrt ![1, 0, 0] ![1, 10, 0] ![0, 0, 0] ![1, 10, -10] ![2, 0, 0] ![0, 0, 20]).1 n)
      ≠ min (absolute Real.sqrt (fun n => (![1, 10, 0] : Vec3 ℝ) n - (![1, 0, 0] : Vec3 ℝ) n))
          (stage2_min_mag Real.sqrt ![1, 0, 0] ![1, 10, 0] ![0, 0, 0] ![1, 10, -10] ![2, 0, 0] ![0, 0, 20]) := by
  refine ⟨window_stage1, window_below_min, window_correction, ?_, ?_⟩
  · rw [window_correction, window_stage1]
    intro h
    have h1 := congrFun (congrArg Prod.fst h) 0
    norm_num at h1
  · rw [correction_eq_stage2 Real.sqrt _ _ _ _ _ _ _ _ window_stage1,
      triggered_separation Real.sqrt _ _ _ _ _ _ window_triggered,
      min_eq_left window_below_min.le]
    exact window_below_min.ne'

/-- C15 as amended: with `(a1, b1)` the points Stage 1 produced and
`m = min(|d1|,|d2|,|d3|,|d4|)`: if `|c_ab| ≤ 0.99 m` the points are left as
Stage 1 produced them and the output separation is `|c_ab| = min(|c_ab|, m)`;
if `|c_ab| > 0.99 m` the output separation is `m`; so the output separation
is the smallest of the five whenever `|c_ab| ≤ 0.99 m` or `m ≤ |c_ab|`. -/
theorem C15_separation_after_stage2 {sqrt : K → K} (hs : IsSqrt sqrt)
    (c_a c_b r_a r_b p_a p_b a1 b1 : Vec3 K)
    (h1 : rod_distance_correction_stage1 sqrt c_a c_b r_a r_b p_a p_b = (a1, b1)) :
    (absolute sqrt (fun n => b1 n - a1 n)
          ≤ (99 / 100) * stage2_min_mag sqrt a1 b1 r_a r_b p_a p_b →
        rod_distance_correction sqrt c_a c_b r_a r_b p_a p_b = (a1, b1)
        ∧ absolute sqrt (fun n => (rod_distance_correction sqrt c_a c_b r_a r_b p_a p_b).2 n
              - (rod_distance_correction sqrt c_a c_b r_a r_b p_a p_b).1 n)
          = min (absolute sqrt (fun n => b1 n - a1 n))
              (stage2_min_mag sqrt a1 b1 r_a r_b p_a p_b))
    ∧ (absolute sqrt (fun n => b1 n - a1 n)
          > (99 / 100) * stage2_min_mag sqrt a1 b1 r_a r_b p_a p_b →
        absolute sqrt (fun n => (rod_distance_correction sqrt c_a c_b r_a r_b p_a p_b).2 n
              - (rod_distance_correction sqrt c_a c_b r_a r_b p_a p_b).1 n)
          = stage2_min_mag sqrt a1 b1 r_a r_b p_a p_b)
    ∧ (stage2_min_mag sqrt a1 b1 r_a r_b p_a p_b ≤ absolute sqrt (fun n => b1 n - a1 n) →
        absolute sqrt (fun n => (rod_distance_correction sqrt c_a c_b r_a r_b p_a p_b).2 n
              - (rod_distance_correction sqrt c_a c_b r_a r_b p_a p_b).1 n)
          = min (absolute sqrt (fun n => b1 n - a1 n))
              (stage2_min_mag sqrt a1 b1 r_a r_b p_a p_b)) := by
  have hm := stage2_min_mag_nonneg hs a1 b1 r_a r_b p_a p_b
  rw [correction_eq_stage2 sqrt _ _ _ _ _ _ _ _ h1]
  have idle : absolute sqrt (fun n => b1 n - a1 n)
        ≤ (99 / 100) * stage2_min_mag sqrt a1 b1 r_a r_b p_a p_b →
      rod_distance_correction_stage2 sqrt a1 b1 r_a r_b p_a p_b = (a1, b1)
      ∧ absolute sqrt (fun n => (rod_distance_correction_stage2 sqrt a1 b1 r_a r_b p_a p_b).2 n
            - (rod_distance_correction_stage2 sqrt a1 b1 r_a r_b p_a p_b).1 n)
        = min (absolute sqrt (fun n => b1 n - a1 n))
            (stage2_min_mag sqrt a1 b1 r_a r_b p_a p_b) := by
    intro hle
    have e := stage2_of_idle sqrt a1 b1 r_a r_b p_a p_b (not_lt.2 hle)
    refine ⟨e, ?_⟩
    rw [e, min_eq_left]
    linarith
  refine ⟨idle, fun h => triggered_separation sqrt a1 b1 r_a r_b p_a p_b h, ?_⟩
  intro hge
  by_cases h : absolute sqrt (fun n => b1 n - a1 n)
      > (99 / 100) * stage2_min_mag sqrt a1 b1 r_a r_b p_a p_b
  · rw [triggered_separation sqrt a1 b1 r_a r_b p_a p_b h, min_eq_right hge]
  · exact (idle (not_lt.1 h)).2

/-- Witness for C15 as amended: the pair of the counterexample, where
`|c_ab| > 0.99 m`; the output separation is `m`. -/
theorem C15_separation_after_stage2_witness :
    absolute Real.sqrt (fun n => (rod_distance_correction Real.sqrt ![1, 0, 0] ![1, 10, 0] ![0, 0, 0] ![1, 10, -10] ![2, 0, 0] ![0, 0, 20]).2 n
        - (rod_distance_correction Real.sqrt ![1, 0, 0] ![1, 10, 0] ![0, 0, 0] ![1, 10, -10] ![2, 0, 0] ![0, 0, 20]).1 n)
      = stage2_min_mag Real.sqrt ![1, 0, 0] ![1, 10, 0] ![0, 0, 0] ![1, 10, -10] ![2, 0, 0] ![0, 0, 20] :=
  (C15_separation_after_stage2 real_isSqrt ![1, 0, 0] ![1, 10, 0] ![0, 0, 0] ![1, 10, -10] ![2, 0, 0] ![0, 0, 20] ![1, 0, 0] ![1, 10, 0] window_stage1).2.1
    window_triggered

/-- C16 (tie-break order): the branch the code's cascade takes is, for all
`d1..d4`, the branch the spec's rule picks ("in the order d1, d2, d3, d4, the
first distance that is at most the minimum of the other three wins"), and
whenever Stage 2 is triggered the output is `c_a := r_a` for `d1`,
`c_a := r_a + p_a` for `d2`, `c_b := r_b` for `d3`, `c_b := r_b + p_b` for
`d4`, the other point being as Stage 1 left it. -/
theorem C16_tie_break_order (sqrt : K → K) (c_a c_b r_a r_b p_a p_b a1 b1 : Vec3 K)
    (h1 : rod_distance_correction_stage1 sqrt c_a c_b r_a r_b p_a p_b = (a1, b1))
    (htrig : absolute sqrt (fun n => b1 n - a1 n)
      > (99 / 100) * stage2_min_mag sqrt a1 b1 r_a r_b p_a p_b) :
    (∀ d1 d2 d3 d4 : K,
        tie_break_rule_spec d1 d2 d3 d4 = some (tie_break_cascade d1 d2 d3 d4))
    ∧ (tie_break_cascade (stage2_d_mags sqrt a1 b1 r_a r_b p_a p_b).1
          (stage2_d_mags sqrt a1 b1 r_a r_b p_a p_b).2.1
          (stage2_d_mags sqrt a1 b1 r_a r_b p_a p_b).2.2.1
          (stage2_d_mags sqrt a1 b1 r_a r_b p_a p_b).2.2.2 = TieBreak.d1 →
        rod_distance_correction sqrt c_a c_b r_a r_b p_a p_b = (r_a, b1))
    ∧ (tie_break_cascade (stage2_d_mags sqrt a1 b1 r_a r_b p_a p_b).1
          (stage2_d_mags sqrt a1 b1 r_a r_b p_a p_b).2.1
          (stage2_d_mags sqrt a1 b1 r_a r_b p_a p_b).2.2.1
          (stage2_d_mags sqrt a1 b1 r_a r_b p_a p_b).2.2.2 = TieBreak.d2 →
        rod_distance_correction sqrt c_a c_b r_a r_b p_a p_b = (fun n => r_a n + p_a n, b1))
    ∧ (tie_break_cascade (stage2_d_mags sqrt a1 b1 r_a r_b p_a p_b).1
          (stage2_d_mags sqrt a1 b1 r_a r_b p_a p_b).2.1
          (stage2_d_mags sqrt a1 b1 r_a r_b p_a p_b).2.2.1
          (stage2_d_mags sqrt a1 b1 r_a r_b p_a p_b).2.2.2 = TieBreak.d3 →
        rod_distance_correction sqrt c_a c_b r_a r_b p_a p_b = (a1, r_b))
    ∧ (tie_break_cascade (stage2_d_mags sqrt a1 b1 r_a r_b p_a p_b).1
          (stage2_d_mags sqrt a1 b1 r_a r_b p_a p_b).2.1
          (stage2_d_mags sqrt a1 b1 r_a r_b p_a p_b).2.2.1
          (stage2_d_mags sqrt a1 b1 r_a r_b p_a p_b).2.2.2 = TieBreak.d4 →
        rod_distance_correction sqrt c_a c_b r_a r_b p_a p_b
          = (a1, fun n => r_b n + p_b n)) := by
  rw [correction_eq_stage2 sqrt _ _ _ _ _ _ _ _ h1,
    stage2_of_triggered sqrt a1 b1 r_a r_b p_a p_b htrig]
  refine ⟨cascade_eq_rule, ?_, ?_, ?_, ?_⟩ <;> intro h <;> rw [h] <;> rfl

/-- Witness for C16: the pair inside the 99% window; the cascade takes the
`d1` branch and the output is `(r_a, b1)`. -/
theorem C16_tie_break_order_witness :
    rod_distance_correction Real.sqrt ![1, 0, 0] ![1, 10, 0] ![0, 0, 0] ![1, 10, -10] ![2, 0, 0] ![0, 0, 20] = (![0, 0, 0], ![1, 10, 0]) :=
  (C16_tie_break_order Real.sqrt ![1, 0, 0] ![1, 10, 0] ![0, 0, 0] ![1, 10, -10] ![2, 0, 0] ![0, 0, 20] ![1, 0, 0] ![1, 10, 0] window_stage1
    window_triggered).2.1 window_cascade

/-- C17 (Stage 2 is threshold-gated and single-point): with `(a1, b1)` the
points Stage 1 produced, if `|b1 - a1| ≤ 0.99 min(|d1|,|d2|,|d3|,|d4|)` the
output is `(a1, b1)`; otherwise either `c_b` is output as Stage 1 left it and
`c_a` is `r_a` or `r_a + p_a`, or `c_a` is output as Stage 1 left it and `c_b`
is `r_b` or `r_b + p_b`. -/
theorem C17_threshold_gated_single_point (sqrt : K → K)
    (c_a c_b r_a r_b p_a p_b a1 b1 : Vec3 K)
    (h1 : rod_distance_correction_stage1 sqrt c_a c_b r_a r_b p_a p_b = (a1, b1)) :
    (absolute sqrt (fun n => b1 n - a1 n)
          ≤ (99 / 100) * stage2_min_mag sqrt a1 b1 r_a r_b p_a p_b →
        rod_distance_correction sqrt c_a c_b r_a r_b p_a p_b = (a1, b1))
    ∧ (¬ absolute sqrt (fun n => b1 n - a1 n)
          ≤ (99 / 100) * stage2_min_mag sqrt a1 b1 r_a r_b p_a p_b →
        ((rod_distance_correction sqrt c_a c_b r_a r_b p_a p_b).2 = b1
          ∧ ((rod_distance_correction sqrt c_a c_b r_a r_b p_a p_b).1 = r_a
            ∨ (rod_distance_correction sqrt c_a c_b r_a r_b p_a p_b).1
              = fun n => r_a n + p_a n))
        ∨ ((rod_distance_correction sqrt c_a c_b r_a r_b p_a p_b).1 = a1
          ∧ ((rod_distance_correction sqrt c_a c_b r_a r_b p_a p_b).2 = r_b
            ∨ (rod_distance_correction sqrt c_a c_b r_a r_b p_a p_b).2
              = fun n => r_b n + p_b n))) := by
  rw [correction_eq_stage2 sqrt _ _ _ _ _ _ _ _ h1]
  constructor
  · intro hle
    exact stage2_of_idle sqrt a1 b1 r_a r_b p_a p_b (not_lt.2 hle)
  · intro hgt
    rw [stage2_of_triggered sqrt a1 b1 r_a r_b p_a p_b (not_le.1 hgt)]
    cases tie_break_cascade (stage2_d_mags sqrt a1 b1 r_a r_b p_a p_b).1
      (stage2_d_mags sqrt a1 b1 r_a r_b p_a p_b).2.1
      (stage2_d_mags sqrt a1 b1 r_a r_b p_a p_b).2.2.1
      (stage2_d_mags sqrt a1 b1 r_a r_b p_a p_b).2.2.2
    · exact Or.inl ⟨rfl, Or.inl rfl⟩
    · exact Or.inl ⟨rfl, Or.inr rfl⟩
    · exact Or.inr ⟨rfl, Or.inl rfl⟩
    · exact Or.inr ⟨rfl, Or.inr rfl⟩

/-- Witness for C17: the pair inside the 99% window, where the threshold is
exceeded; `c_b` is output as Stage 1 left it and `c_a` is an endpoint of
element a, or the other way round. -/
theorem C17_threshold_gated_single_point_witness :
    ((rod_distance_correction Real.sqrt ![1, 0, 0] ![1, 10, 0] ![0, 0, 0] ![1, 10, -10] ![2, 0, 0] ![0, 0, 20]).2 = ![1, 10, 0]
      ∧ ((rod_distance_correction Real.sqrt ![1, 0, 0] ![1, 10, 0] ![0, 0, 0] ![1, 10, -10] ![2, 0, 0] ![0, 0, 20]).1 = ![0, 0, 0]
        ∨ (rod_distance_correction Real.sqrt ![1, 0, 0] ![1, 10, 0] ![0, 0, 0] ![1, 10, -10] ![2, 0, 0] ![0, 0, 20]).1
          = fun n => (![0, 0, 0] : Vec3 ℝ) n + (![2, 0, 0] : Vec3 ℝ) n))
    ∨ ((rod_distance_correction Real.sqrt ![1, 0, 0] ![1, 10, 0] ![0, 0, 0] ![1, 10, -10] ![2, 0, 0] ![0, 0, 20]).1 = ![1, 0, 0]
      ∧ ((rod_distance_correction Real.sqrt ![1, 0, 0] ![1, 10, 0] ![0, 0, 0] ![1, 10, -10] ![2, 0, 0] ![0, 0, 20]).2 = ![1, 10, -10]
        ∨ (rod_distance_correction Real.sqrt ![1, 0, 0] ![1, 10, 0] ![0, 0, 0] ![1, 10, -10] ![2, 0, 0] ![0, 0, 20]).2
          = fun n => (![1, 10, -10] : Vec3 ℝ) n + (![0, 0, 20] : Vec3 ℝ) n)) :=
  (C17_threshold_gated_single_point Real.sqrt ![1, 0, 0] ![1, 10, 0] ![0, 0, 0] ![1, 10, -10] ![2, 0, 0] ![0, 0, 20] ![1, 0, 0] ![1, 10, 0] window_stage1).2
    (not_le.2 window_triggered)

/-- C18 (containment on the a-side alone): for non-zero `p_a` and an input
`c_a = r_a + s p_a` on the line through element a, the `c_a_out` of
`rod_distance_correction` is `r_a + t p_a` with `0 ≤ t ≤ 1`, whatever `c_b`,
`r_b`, `p_b` are. -/
theorem C18_a_side_containment {sqrt : K → K} (hs : IsSqrt sqrt)
    (c_a c_b r_a r_b p_a p_b : Vec3 K) (s : K) (ha : p_a ≠ 0)
    (hline : ∀ n, c_a n = r_a n + s * p_a n) :
    ∃ t : K, 0 ≤ t ∧ t ≤ 1 ∧ ∀ n,
      (rod_distance_correction sqrt c_a c_b r_a r_b p_a p_b).1 n = r_a n + t * p_a n := by
  have hseg := stage1_c_a_on_segment p_a r_a c_a s ha hline
  have h1 : rod_distance_correction_stage1 sqrt c_a c_b r_a r_b p_a p_b
      = ((stage1_sq c_a c_b r_a r_b p_a p_b).1, (stage1_sq c_a c_b r_a r_b p_a p_b).2) := by
    rw [stage1_eq_sq hs]
  rw [correction_eq_stage2 sqrt _ _ _ _ _ _ _ _ h1]
  by_cases htrig : absolute sqrt (fun n => (stage1_sq c_a c_b r_a r_b p_a p_b).2 n
        - (stage1_sq c_a c_b r_a r_b p_a p_b).1 n)
      > (99 / 100) * stage2_min_mag sqrt (stage1_sq c_a c_b r_a r_b p_a p_b).1
          (stage1_sq c_a c_b r_a r_b p_a p_b).2 r_a r_b p_a p_b
  · rw [stage2_of_triggered sqrt _ _ _ _ _ _ htrig]
    cases tie_break_cascade
      (stage2_d_mags sqrt (stage1_sq c_a c_b r_a r_b p_a p_b).1
        (stage1_sq c_a c_b r_a r_b p_a p_b).2 r_a r_b p_a p_b).1
      (stage2_d_mags sqrt (stage1_sq c_a c_b r_a r_b p_a p_b).1
        (stage1_sq c_a c_b r_a r_b p_a p_b).2 r_a r_b p_a p_b).2.1
      (stage2_d_mags sqrt (stage1_sq c_a c_b r_a r_b p_a p_b).1
        (stage1_sq c_a c_b r_a r_b p_a p_b).2 r_a r_b p_a p_b).2.2.1
      (stage2_d_mags sqrt (stage1_sq c_a c_b r_a r_b p_a p_b).1
        (stage1_sq c_a c_b r_a r_b p_a p_b).2 r_a r_b p_a p_b).2.2.2
    · exact ⟨0, le_refl _, zero_le_one, fun n => by
        show r_a n = r_a n + 0 * p_a n
        ring⟩
    · exact ⟨1, zero_le_one, le_refl _, fun n => by
        show r_a n + p_a n = r_a n + 1 * p_a n
        ring⟩
    · exact hseg
    · exact hseg
  · rw [stage2_of_idle sqrt _ _ _ _ _ _ htrig]
    exact hseg

/-- Witness for C18: `c_a = (-1,0,0) = r_a + (-1) p_a` with `r_a = (0,0,0)`,
`p_a = (1,0,0)`; the output `c_a` is on the segment. -/
theorem C18_a_side_containment_witness :
    ∃ t : ℝ, 0 ≤ t ∧ t ≤ 1 ∧ ∀ n,
      (rod_distance_correction Real.sqrt ![-1, 0, 0] ![-1, 0, 0] ![0, 0, 0] ![-1, -2, 0]
        ![1, 0, 0] ![0, 1, 0]).1 n = (![0, 0, 0] : Vec3 ℝ) n + t * (![1, 0, 0] : Vec3 ℝ) n :=
  C18_a_side_containment real_isSqrt ![-1, 0, 0] ![-1, 0, 0] ![0, 0, 0] ![-1, -2, 0]
    ![1, 0, 0] ![0, 1, 0] (-1) (ne_zero_of_component 0 (by simp))
    (by intro n; fin_cases n <;> simp)

/-- C19 (persistent perturbation): after `get_steric_perturbation_energy`
component `perturbation_dimension` of the caller's `c_b` is its old value plus
`perturbation_amount`, the other components of `c_b` and all of `r_a`, `p_a`,
`c_a` are unchanged; the first call evaluates the energy at `c_b + delta` and
a second call on the same buffers and axis evaluates it at `c_b + 2 delta`. -/
theorem C19_persistent_perturbation (sqrt : K → K) (delta : K) (d : Fin 3) (k : K)
    (r_a p_a c_a c_b : Vec3 K) (radius_a radius_b : K) :
    (steric_buffers_after sqrt delta d k r_a p_a c_a c_b radius_a radius_b).2.2.2 d
        = c_b d + delta
    ∧ (∀ n, n ≠ d →
        (steric_buffers_after sqrt delta d k r_a p_a c_a c_b radius_a radius_b).2.2.2 n
          = c_b n)
    ∧ (steric_buffers_after sqrt delta d k r_a p_a c_a c_b radius_a radius_b).1 = r_a
    ∧ (steric_buffers_after sqrt delta d k r_a p_a c_a c_b radius_a radius_b).2.1 = p_a
    ∧ (steric_buffers_after sqrt delta d k r_a p_a c_a c_b radius_a radius_b).2.2.1 = c_a
    ∧ (get_steric_perturbation_energy sqrt delta d k r_a p_a c_a c_b radius_a radius_b).energy
        = k * (absolute sqrt (fun n => (if n = d then c_b n + delta else c_b n) - c_a n)
            - (radius_a + radius_b))
    ∧ (get_steric_perturbation_energy sqrt delta d k
          (steric_buffers_after sqrt delta d k r_a p_a c_a c_b radius_a radius_b).1
          (steric_buffers_after sqrt delta d k r_a p_a c_a c_b radius_a radius_b).2.1
          (steric_buffers_after sqrt delta d k r_a p_a c_a c_b radius_a radius_b).2.2.1
          (steric_buffers_after sqrt delta d k r_a p_a c_a c_b radius_a radius_b).2.2.2
          radius_a radius_b).energy
        = k * (absolute sqrt (fun n => (if n = d then c_b n + 2 * delta else c_b n) - c_a n)
            - (radius_a + radius_b)) := by
  have hupd : ∀ (v : Vec3 K) (x : K), Function.update v d (v d + x)
      = fun n => if n = d then v n + x else v n := by
    intro v x
    funext n
    by_cases hn : n = d
    · subst hn
      simp
    · simp [hn]
  refine ⟨?_, ?_, rfl, rfl, rfl, ?_, ?_⟩
  · simp [steric_buffers_after, get_steric_perturbation_energy]
  · intro n hn
    simp [steric_buffers_after, get_steric_perturbation_energy, hn]
  · unfold get_steric_perturbation_energy
    dsimp only
    rw [hupd]
  · unfold steric_buffers_after get_steric_perturbation_energy
    dsimp only
    rw [hupd, hupd]
    congr 3
    funext n
    by_cases hn : n = d
    · simp [hn]
      ring
    · simp [hn]

end rod
